import Mathlib

/-!
Formal model of the `NZM_CMD_Makcu` automation program (Rust), shallow-embedded
in Lean 4.

The embedding covers the scene-recognition and navigation engine
(`src/nav.rs`: `GameInterface::check_color_anchor`, `check_text_anchor`,
`NavEngine::get_match_score`, `identify_current_scene`, `wait_for_scene`,
`navigate`, `find_path`) and the tower-defense scheduler
(`src/tower_defense.rs`: `validate_wave_transition`, `execute_wave_phase`,
`dispatch_tasks_by_region`, `process_task_batch`, the three `perform_*`
actions, `smart_move_camera`, `scroll_camera_by_pixels`,
`align_camera_to_edge`, `get_hid_code`), plus `HumanDriver::char_to_keycode`
from `src/human.rs`.

Modelling conventions:
- Screen I/O (screenshots, OCR, the serial input device) is abstracted into
  oracle functions and event traces; all pure control flow and arithmetic is
  translated directly from the source.
- Rust `HashMap<String, Scene>` is modelled as an association list in the
  map's (arbitrary) iteration order; lookup is first-match.
- Rust `HashSet` completion sets are modelled as `Finset`.
- `f32` camera arithmetic is modelled over `ℚ`; the `as u64` cast of a
  nonnegative float is truncation, modelled by `Int.floor`/`toNat`.
- `u8` arithmetic is modelled over `Nat` with explicit wrapping `% 256`.
- `Instant` timestamps are modelled as `Nat` milliseconds;
  `Duration::as_secs` truncates, modelled by `Nat` division by 1000.
-/

namespace NZM

/-! ## Scene data model (src/nav.rs, TOML configuration records) -/

/-- A text anchor: screen rectangle plus the substring expected in its OCR. -/
structure TextAnchor where
  rect : Int × Int × Int × Int
  val : String
deriving DecidableEq, Repr

/-- A color anchor: screen point, expected color (decoded RGB), tolerance.
The source stores the expected color as a hex string and decodes it with
`hex::decode` (malformed input decodes to `[0,0,0]`); the embedding carries
the decoded triple directly. `tol` is the `u8` field `tol`. -/
structure ColorAnchor where
  pos : Int × Int
  valRgb : Nat × Nat × Nat
  tol : Nat
deriving DecidableEq, Repr

/-- The `anchors` table of a scene: optional text and color anchor lists. -/
structure Anchors where
  text : Option (List TextAnchor)
  color : Option (List ColorAnchor)
deriving DecidableEq, Repr

/-- A transition: target scene id, click coordinate, post-click delay (ms). -/
structure Transition where
  target : String
  coords : Int × Int
  post_delay : Nat
deriving DecidableEq, Repr

/-- A scene record as deserialized from the TOML configuration. -/
structure Scene where
  id : String
  logic : String
  anchors : Option Anchors
  transitions : Option (List Transition)
deriving DecidableEq, Repr

/-- The `NavEngine.scenes` hash map, as an association list in the map's
iteration order. `HashMap` iteration order is arbitrary (seeded per map
instance), so theorems quantify over this list. -/
abbrev SceneMap : Type := List (String × Scene)

/-- `self.scenes.get(id)`: first-match association lookup. -/
def sceneGet (m : SceneMap) (id : String) : Option Scene :=
  (List.find? (fun p => p.1 == id) m).map (fun p => p.2)

/-! ## ASCII lowercasing and logic flag -/

/-- Rust `char::to_ascii_lowercase`. -/
def asciiLower (c : Char) : Char :=
  if 65 ≤ c.toNat ∧ c.toNat ≤ 90 then Char.ofNat (c.toNat + 32) else c

/-- `scene.logic.to_lowercase() == "or"`. (Rust `str::to_lowercase` is
Unicode lowercasing; on the logic strings it agrees with per-character ASCII
lowercasing, since no non-ASCII character lowercases into "or".) -/
def isOrLogic (s : String) : Bool :=
  (⟨s.data.map asciiLower⟩ : String) == "or"

/-! ## Anchor checks (src/nav.rs, GameInterface) -/

/-- Substring containment, Rust `str::contains`. -/
def stringContains (s pat : String) : Bool :=
  decide (List.IsInfix pat.data s.data)

/-- `GameInterface::check_text_anchor`: the OCR output of the anchor's
rectangle must contain the expected substring. The OCR/capture pipeline is
abstracted as the string it produced (empty on failure in the source). -/
def check_text_anchor (ocrOutput : String) (expected : String) : Bool :=
  stringContains ocrOutput expected

/-- `GameInterface::check_color_anchor`: the capture is abstracted as the
sampled pixel (`none` models a failed capture / fewer than 3 bytes, which the
source answers with `false`). The source computes the per-channel absolute
differences in `i16`, which cannot overflow for byte-sized channels, so `Int`
arithmetic is faithful. -/
def check_color_anchor (sample : Option (Nat × Nat × Nat))
    (expected : Nat × Nat × Nat) (tolerance : Nat) : Bool :=
  match sample with
  | none => false
  | some (r, g, b) =>
      decide (((r : Int) - expected.1).natAbs + ((g : Int) - expected.2.1).natAbs
        + ((b : Int) - expected.2.2).natAbs ≤ tolerance * 3)

/-! ## Scene scoring (NavEngine::get_match_score)

The per-anchor screen probes are abstracted as oracles `textOk`/`colorOk`
(each instantiable with `check_text_anchor`/`check_color_anchor` applied to
the current screen's OCR output / sampled pixel). -/

def anchorTexts (a : Anchors) : List TextAnchor := a.text.getD []

def anchorColors (a : Anchors) : List ColorAnchor := a.color.getD []

/-- `NavEngine::get_match_score`: count passing anchors; return the count if
the scene's logic accepts it, else 0. Missing scene or missing `anchors`
table scores 0. -/
def get_match_score (m : SceneMap) (targetId : String)
    (textOk : TextAnchor → Bool) (colorOk : ColorAnchor → Bool) : Nat :=
  match sceneGet m targetId with
  | none => 0
  | some scene =>
    match scene.anchors with
    | none => 0
    | some anchors =>
      let score := (anchorTexts anchors).countP textOk
        + (anchorColors anchors).countP colorOk
      let totalChecks := (anchorTexts anchors).length + (anchorColors anchors).length
      if isOrLogic scene.logic then (if 0 < score then score else 0)
      else (if score = totalChecks ∧ 0 < totalChecks then score else 0)

/-! ## Scene identification (NavEngine::identify_current_scene)

The source iterates `for (id, _) in &self.scenes` over the `HashMap`, whose
iteration order is arbitrary; the embedding iterates the association list in
its list order, and theorems quantify over that order. -/

/-- The score of one scene id against the current screen oracles. -/
def sceneScore (m : SceneMap) (textOk : TextAnchor → Bool)
    (colorOk : ColorAnchor → Bool) (id : String) : Nat :=
  get_match_score m id textOk colorOk

/-- One iteration of the scan loop in `identify_current_scene`: skip the
hint id, otherwise replace the best match when this scene scores positive
and strictly above the running maximum. -/
def scanStep (hint : Option String) (s : String → Nat)
    (acc : Option String × Nat) (p : String × Scene) : Option String × Nat :=
  if hint = some p.1 then acc
  else if 0 < s p.1 ∧ acc.2 < s p.1 then (some p.1, s p.1) else acc

/-- The full scan over the scene map (the `best_match`/`max_score` loop). -/
def identifyScan (m : SceneMap) (hint : Option String)
    (textOk : TextAnchor → Bool) (colorOk : ColorAnchor → Bool) :
    Option String × Nat :=
  m.foldl (scanStep hint (sceneScore m textOk colorOk)) (none, 0)

/-- `NavEngine::identify_current_scene`: a hint scoring positive
short-circuits; otherwise scan all scenes (skipping the hint). -/
def identify_current_scene (m : SceneMap) (hint : Option String)
    (textOk : TextAnchor → Bool) (colorOk : ColorAnchor → Bool) : Option String :=
  match hint with
  | some targetId =>
      if 0 < sceneScore m textOk colorOk targetId then some targetId
      else (identifyScan m (some targetId) textOk colorOk).1
  | none => (identifyScan m none textOk colorOk).1

/-! ## Path planning (NavEngine::find_path)

Breadth-first search over the scene graph. The embedding mirrors the
source's queue (`VecDeque`), visited list (`Vec`, appended in enqueue order)
and `came_from` map; loops that the source runs unguarded are given fuel,
with `none` modelling non-termination, and the fuel is proved sufficient. -/

/-- Transitions declared on a scene; empty for a missing scene or a missing
transition list. -/
def transOf (m : SceneMap) (id : String) : List Transition :=
  match sceneGet m id with
  | none => []
  | some s => s.transitions.getD []

/-- The `came_from` map of `find_path`: association list with fresh keys
prepended. Keys are inserted at most once, so lookup agrees with `HashMap`. -/
abbrev CameFrom : Type := List (String × (String × Transition))

def cfGet (cf : CameFrom) (id : String) : Option (String × Transition) :=
  (List.find? (fun p => p.1 == id) cf).map (fun p => p.2)

/-- `p` chains `u` to `w` through declared transitions: the path-validity
predicate for the scene graph. -/
inductive Chains (m : SceneMap) : String → List Transition → String → Prop
  | nil (v : String) : Chains m v [] v
  | cons {u w : String} {t : Transition} {p : List Transition} :
      t ∈ transOf m u → Chains m t.target p w → Chains m u (t :: p) w

/-- `n` is the BFS shortest-path distance (minimal transition count) from
`s` to `v` in the scene graph. -/
def MinLen (m : SceneMap) (s v : String) (n : Nat) : Prop :=
  (∃ p, Chains m s p v ∧ p.length = n) ∧ ∀ p, Chains m s p v → n ≤ p.length

/-- Path reconstruction: the `while p != start` loop at the end of
`find_path` (`path.push(trans); p = prev`, then `path.reverse()`). The
source loop spins forever when `came_from` lacks an entry for a non-start
node; `fuel` bounds the iterations and `none` models non-termination
(proved unreachable below). -/
def reconstruct (cf : CameFrom) (start : String) :
    Nat → String → List Transition → Option (List Transition)
  | 0, _, _ => none
  | fuel + 1, p, path =>
    if p == start then some path.reverse
    else
      match cfGet cf p with
      | some (prev, tr) => reconstruct cf start fuel prev (path ++ [tr])
      | none => none

/-- One step of the `for t in trans` loop of `find_path`: an unvisited
target is appended to visited and to the back of the queue, and its
discovery edge is recorded. State is (queue, visited, came_from). -/
def expandStep (curr : String) (st : List String × List String × CameFrom)
    (t : Transition) : List String × List String × CameFrom :=
  if t.target ∈ st.2.1 then st
  else (st.1 ++ [t.target], st.2.1 ++ [t.target], (t.target, (curr, t)) :: st.2.2)

/-- The `while let Some(curr) = queue.pop_front()` loop of `find_path`.
Returns the result together with the final visited list (the log of all
enqueued ids in enqueue order); `none` models fuel exhaustion (proved
unreachable for the fuel used by `find_path_run`). -/
def bfsLoop (m : SceneMap) (start target : String) :
    Nat → List String → List String → CameFrom →
    Option (Option (List Transition) × List String)
  | 0, _, _, _ => none
  | fuel + 1, queue, visited, cameFrom =>
    match queue with
    | [] => some (none, visited)
    | curr :: qs =>
      if curr == target then
        match reconstruct cameFrom start (visited.length + 1) curr [] with
        | some path => some (some path, visited)
        | none => none
      else
        let st := (transOf m curr).foldl (expandStep curr) (qs, visited, cameFrom)
        bfsLoop m start target fuel st.1 st.2.1 st.2.2

/-- Every id that can ever be visited: the start plus all declared
transition targets. Bounds the BFS iteration count. -/
def nodeUniverse (m : SceneMap) (start : String) : List String :=
  start :: (m.map (fun p => (p.2.transitions.getD []).map Transition.target)).flatten

/-- The BFS of `find_path` run with sufficient fuel. -/
def find_path_run (m : SceneMap) (start target : String) :
    Option (Option (List Transition) × List String) :=
  bfsLoop m start target ((nodeUniverse m start).length + 1) [start] [start] []

/-- `NavEngine::find_path`. -/
def find_path (m : SceneMap) (start target : String) : Option (List Transition) :=
  if start == target then some []
  else
    match find_path_run m start target with
    | some (res, _) => res
    | none => none

/-- The log of ids enqueued by a `find_path` call, in enqueue order (nothing
is enqueued when `start == target`). -/
def find_path_enqueues (m : SceneMap) (start target : String) : Option (List String) :=
  if start == target then some []
  else (find_path_run m start target).map (fun r => r.2)

/-- The BFS loop invariant. `processed` is the list of already-dequeued
ids (ghost, determined by `visited` and `queue`); `visited` is the enqueue
log. Distances are tracked through `MinLen`. -/
structure BfsInv (m : SceneMap) (start target : String)
    (processed queue visited : List String) (cameFrom : CameFrom) : Prop where
  vEq : visited = processed ++ queue
  vNodup : visited.Nodup
  vUniverse : ∀ v ∈ visited, v ∈ nodeUniverse m start
  startMem : start ∈ visited
  reach : ∀ v ∈ visited, ∃ n, MinLen m start v n
  sorted : queue.Pairwise
    (fun x y => ∀ nx ny, MinLen m start x nx → MinLen m start y ny → nx ≤ ny)
  twoLevels : ∀ h x, queue.head? = some h → x ∈ queue →
    ∀ nh nx, MinLen m start h nh → MinLen m start x nx → nx ≤ nh + 1
  closure : ∀ u ∈ processed, ∀ t ∈ transOf m u, t.target ∈ visited
  cfGood : ∀ v ∈ visited, v ≠ start → ∃ u t n, cfGet cameFrom v = some (u, t) ∧
    t ∈ transOf m u ∧ t.target = v ∧ u ∈ visited ∧
    MinLen m start u n ∧ MinLen m start v (n + 1)
  targetNew : target ∉ processed

/-! ## Wave-transition validation (src/tower_defense.rs) -/

/-- The wave-tracking fields of `TowerDefenseApp`. `last_wave_change_time` is
an `Instant`, modelled as `Nat` milliseconds on a monotone clock. -/
structure WaveState where
  last_confirmed_wave : Int
  last_wave_change_time : Nat
deriving DecidableEq, Repr

/-- `TowerDefenseApp::validate_wave_transition`. `now` is `Instant::now()` in
milliseconds; `duration_since` saturates at zero (`Nat` subtraction) and
`as_secs` truncates (division by 1000). -/
def validate_wave_transition (st : WaveState) (now : Nat) (detected_wave : Int) :
    Bool × WaveState :=
  let elapsed := (now - st.last_wave_change_time) / 1000
  let is_next_wave := detected_wave == st.last_confirmed_wave + 1
  let is_long_enough := decide (60 ≤ elapsed) || st.last_confirmed_wave == 0
  if is_next_wave && is_long_enough then
    (true, { last_confirmed_wave := detected_wave, last_wave_change_time := now })
  else
    (false, st)

/-! ## HID key codes (src/tower_defense.rs get_hid_code, src/human.rs) -/

/-- `u8` wrapping. -/
def u8wrap (n : Nat) : Nat := n % 256

/-- `get_hid_code` from src/tower_defense.rs, with release-mode (wrapping)
`u8` arithmetic for `c as u8 - b'1' + 0x1E`. In a debug build the
subtraction panics when it underflows (i.e. when `c` is `'0'`, code 48 <
49). -/
def get_hid_code (c : Char) : Nat :=
  let lc := asciiLower c
  if 'a' ≤ lc ∧ lc ≤ 'z' then lc.toNat - 97 + 0x04
  else if '0' ≤ lc ∧ lc ≤ '9' then u8wrap (u8wrap (c.toNat + 256 - 49) + 0x1E)
  else if lc = ' ' then 0x2C
  else 0

/-- Whether `get_hid_code`'s digit branch is reached with `c as u8 < b'1'`,
i.e. whether the subtraction `c as u8 - b'1'` underflows. -/
def get_hid_code_digit_underflows (c : Char) : Bool :=
  let lc := asciiLower c
  decide (¬ ('a' ≤ lc ∧ lc ≤ 'z') ∧ ('0' ≤ lc ∧ lc ≤ '9') ∧ c.toNat < 49)

/-- `HumanDriver::char_to_keycode` from src/human.rs: the sibling translation
used by `key_hold`/`key_click`, which special-cases `'0'`. -/
def char_to_keycode (ch : Char) : Nat :=
  let lc := asciiLower ch
  if 'a' ≤ lc ∧ lc ≤ 'z' then lc.toNat - 97 + 0x04
  else if '1' ≤ lc ∧ lc ≤ '9' then ch.toNat - 49 + 0x1E
  else if lc = '0' then 0x27
  else if lc = ' ' then 0x2C
  else 0

/-! ## Navigation execution (NavEngine::navigate, wait_for_scene)

The screen changes over time, so the anchor oracles are indexed by the
current time in milliseconds (advanced only by sleeps; probes and clicks are
modelled as instantaneous). Events record the observable actions. -/

inductive NavResult
  | success
  | handover (id : String)
  | failed
deriving DecidableEq, Repr

inductive NavEvent
  | click (x y : Int)
  | sleep (ms : Nat)
  | poll (id : String)
  | scan
deriving DecidableEq, Repr

/-- The event trace of `n` failed confirmation probes: each iteration polls
the target scene and sleeps 200 ms. -/
def pollTrace (id : String) : Nat → List NavEvent
  | 0 => []
  | n + 1 => NavEvent.poll id :: NavEvent.sleep 200 :: pollTrace id n

/-- The polling loop of `NavEngine::wait_for_scene`: while elapsed time is
below the timeout, probe the target scene's score (a `poll` event) and sleep
200 ms between probes. Returns (found, total elapsed ms, events). Each
iteration advances `elapsed` by 200, so the loop runs at most
`⌈timeout_ms / 200⌉` times; the structural `fuel` argument with which
`wait_for_scene` calls it strictly exceeds that bound, so the fuel-exhausted
base case is never reached from `wait_for_scene`. -/
def waitLoop (m : SceneMap) (textOkAt : Nat → TextAnchor → Bool)
    (colorOkAt : Nat → ColorAnchor → Bool) (targetId : String)
    (timeout_ms start_time : Nat) : Nat → Nat → Bool × Nat × List NavEvent
  | 0, elapsed => (false, elapsed, [])
  | fuel + 1, elapsed =>
    if elapsed < timeout_ms then
      if 0 < get_match_score m targetId (textOkAt (start_time + elapsed))
          (colorOkAt (start_time + elapsed)) then
        (true, elapsed, [NavEvent.poll targetId])
      else
        let r := waitLoop m textOkAt colorOkAt targetId timeout_ms start_time fuel
          (elapsed + 200)
        (r.1, r.2.1, NavEvent.poll targetId :: NavEvent.sleep 200 :: r.2.2)
    else (false, elapsed, [])

/-- `NavEngine::wait_for_scene`, started at global time `now`. -/
def wait_for_scene (m : SceneMap) (textOkAt : Nat → TextAnchor → Bool)
    (colorOkAt : Nat → ColorAnchor → Bool) (targetId : String)
    (timeout_ms now : Nat) : Bool × Nat × List NavEvent :=
  waitLoop m textOkAt colorOkAt targetId timeout_ms now (timeout_ms / 200 + 1) 0

/-- The per-transition execution loop of `NavEngine::navigate` (the `for
(i, step) in path.iter().enumerate()` body): click the transition
coordinate; a virtual (anchorless) target sleeps `post_delay` and hands
over; otherwise poll for confirmation up to `max(post_delay, 2000)` ms,
settle 300 ms on success, and on timeout run one diagnostic identify scan
and fail. Returns (result, end time, events). -/
def execSteps (m : SceneMap) (textOkAt : Nat → TextAnchor → Bool)
    (colorOkAt : Nat → ColorAnchor → Bool) :
    List Transition → Nat → NavResult × Nat × List NavEvent
  | [], now => (NavResult.success, now, [])
  | step :: rest, now =>
    let clickEv := NavEvent.click step.coords.1 step.coords.2
    let is_virtual := match sceneGet m step.target with
      | some s => s.anchors.isNone
      | none => false
    if is_virtual then
      (NavResult.handover step.target, now + step.post_delay,
        [clickEv, NavEvent.sleep step.post_delay])
    else
      let timeout := if step.post_delay < 2000 then 2000 else step.post_delay
      let w := wait_for_scene m textOkAt colorOkAt step.target timeout now
      if w.1 then
        let r := execSteps m textOkAt colorOkAt rest (now + w.2.1 + 300)
        (r.1, r.2.1, clickEv :: (w.2.2 ++ NavEvent.sleep 300 :: r.2.2))
      else
        (NavResult.failed, now + w.2.1, clickEv :: (w.2.2 ++ [NavEvent.scan]))

/-- `NavEngine::navigate`: identify the current scene (a `scan` event), plan
with `find_path`, then execute the transitions. -/
def navigate (m : SceneMap) (textOkAt : Nat → TextAnchor → Bool)
    (colorOkAt : Nat → ColorAnchor → Bool) (target_id : String) :
    NavResult × List NavEvent :=
  match identify_current_scene m none (textOkAt 0) (colorOkAt 0) with
  | none => (NavResult.failed, [NavEvent.scan])
  | some start_id =>
    if start_id = target_id then (NavResult.success, [NavEvent.scan])
    else
      match find_path m start_id target_id with
      | none => (NavResult.failed, [NavEvent.scan])
      | some path =>
        let r := execSteps m textOkAt colorOkAt path 0
        (r.1, NavEvent.scan :: r.2.2)

/-- A small concrete scene graph: `A` (one text anchor, transitions to `B`
and `C`), `B` virtual (no anchors table), `C` with a text anchor. -/
def c4map : SceneMap :=
  [("A", ⟨"A", "and", some ⟨some [⟨(0, 0, 10, 10), "home"⟩], none⟩,
     some [⟨"B", (10, 20), 500⟩, ⟨"C", (30, 40), 100⟩]⟩),
   ("B", ⟨"B", "and", none, none⟩),
   ("C", ⟨"C", "and", some ⟨some [⟨(0, 0, 10, 10), "shop"⟩], none⟩, none⟩)]

/-! ## Tower-defense scheduler data model (src/tower_defense.rs) -/

inductive PrepAction
  | keyDown (key : Char)
  | keyUpAll
  | wait (ms : Nat)
  | logMsg (msg : String)
deriving DecidableEq, Repr

structure TDConfig where
  hud_check_rect : Int × Int × Int × Int
  hud_wave_loop_rect : Int × Int × Int × Int
  safe_zone : Int × Int × Int × Int
  screen_width : ℚ
  screen_height : ℚ
deriving DecidableEq, Repr

/-- `TDConfig::default()`. -/
def TDConfig.default : TDConfig :=
  ⟨(262, 16, 389, 97), (350, 288, 582, 362), (200, 200, 1720, 880), 1920, 1080⟩

structure MapMeta where
  grid_pixel_size : ℚ
  offset_x : ℚ
  offset_y : ℚ
  bottom : ℚ
  prep_actions : List PrepAction
deriving DecidableEq, Repr

structure BuildingExport where
  uid : Nat
  name : String
  grid_x : Nat
  grid_y : Nat
  width : Nat
  height : Nat
  wave_num : Int
  is_late : Bool
deriving DecidableEq, Repr

structure UpgradeEvent where
  building_name : String
  wave_num : Int
  is_late : Bool
deriving DecidableEq, Repr

structure DemolishEvent where
  uid : Nat
  name : String
  grid_x : Nat
  grid_y : Nat
  width : Nat
  height : Nat
  wave_num : Int
  is_late : Bool
deriving DecidableEq, Repr

inductive TaskAction
  | demolish (d : DemolishEvent)
  | place (b : BuildingExport)
  | upgrade (u : UpgradeEvent)
deriving DecidableEq, Repr

structure ScheduledTask where
  action : TaskAction
  map_y : ℚ
  map_x : ℚ
  priority : Nat
deriving DecidableEq, Repr

/-- The immutable parts of `TowerDefenseApp` during a run: configuration,
terrain metadata and the loaded strategy. -/
structure TDCtx where
  config : TDConfig
  map_meta : Option MapMeta
  strategy_buildings : List BuildingExport
  strategy_upgrades : List UpgradeEvent
  strategy_demolishes : List DemolishEvent
  active_loadout : List String
deriving DecidableEq, Repr

/-- The mutable scheduler state: the completion-tracking sets (`HashSet`s in
the source, modelled as `Finset`) and the camera offset estimate. -/
structure TDState where
  placed_uids : Finset Nat
  completed_upgrade_keys : Finset String
  completed_demolish_uids : Finset Nat
  camera_offset_y : ℚ
deriving DecidableEq

/-- `move_speed`: set to `300.0` in `TowerDefenseApp::new` and never
reassigned. -/
def move_speed : ℚ := 300

/-- Observable scheduler actions. The `act*` constructors mark the dispatch
of one demolish / build / upgrade action (the body of the corresponding
`perform_*` call); the rest are raw input events. -/
inductive TDEvent
  | moveTo (x y : ℚ)
  | click
  | doubleClick
  | keyClick (c : Char)
  | keyHold (c : Char) (ms : Nat)
  | sleep (ms : Nat)
  | actDemolish (uid : Nat)
  | actPlace (uid : Nat)
  | actUpgrade (key : String)
deriving DecidableEq, Repr

/-- The upgrade completion key `format!("{}-{}-{}", name, wave_num, is_late)`. -/
def fmtKey (name : String) (wave : Int) (late : Bool) : String :=
  name ++ "-" ++ toString wave ++ "-" ++ (if late then "true" else "false")

/-- `TowerDefenseApp::get_absolute_map_pixel`. -/
def get_absolute_map_pixel (meta : Option MapMeta) (gx gy w h : Nat) : Option (ℚ × ℚ) :=
  match meta with
  | none => none
  | some meta =>
    some (meta.offset_x + ((gx : ℚ) + (w : ℚ) / 2) * meta.grid_pixel_size,
          meta.offset_y + ((gy : ℚ) + (h : ℚ) / 2) * meta.grid_pixel_size)

/-- `TowerDefenseApp::get_trap_key`. -/
def get_trap_key (active_loadout : List String) (name : String) : Char :=
  match (active_loadout.findIdx? (fun t => t == name)).getD 0 with
  | 0 => '4'
  | 1 => '5'
  | 2 => '6'
  | 3 => '7'
  | _ => '1'

/-- `TowerDefenseApp::are_tasks_in_current_view`. -/
def are_tasks_in_current_view (cfg : TDConfig) (camera_offset_y : ℚ)
    (tasks : List ScheduledTask) : Bool :=
  let safe_map_top := camera_offset_y + (cfg.safe_zone.2.1 : ℚ)
  let safe_map_bottom := camera_offset_y + (cfg.safe_zone.2.2.2 : ℚ)
  tasks.all (fun task => decide (safe_map_top ≤ task.map_y ∧ task.map_y ≤ safe_map_bottom))

/-- `TowerDefenseApp::align_camera_to_edge` (`map_meta` unwrap hoisted to the
caller: the source unwraps, and it is only called under a loaded map). -/
def align_camera_to_edge (cfg : TDConfig) (meta : MapMeta) (st : TDState) (top : Bool) :
    TDState × List TDEvent :=
  let max_scroll_y := max (meta.bottom - cfg.screen_height) 0
  let key := if top then 'w' else 's'
  ({ st with camera_offset_y := if top then 0 else max_scroll_y },
   [TDEvent.keyHold key 2500, TDEvent.sleep 500])

/-- Rust `as u64` on a nonnegative `f32`: truncation toward zero. -/
def ratToU64 (q : ℚ) : Nat := (Int.floor q).toNat

/-- `TowerDefenseApp::scroll_camera_by_pixels`: returns the estimated pixels
actually moved. -/
def scroll_camera_by_pixels (direction : Char) (pixels : ℚ)
    (time_resolution_ms : Nat) : ℚ × List TDEvent :=
  if pixels < 10 then (0, [])
  else
    let raw_ms := ratToU64 (pixels / move_speed * 1000)
    let units := (raw_ms + time_resolution_ms / 2) / time_resolution_ms
    let final_ms := (max units 1) * time_resolution_ms
    (((final_ms : ℚ) / 1000) * move_speed, [TDEvent.keyHold direction final_ms])

/-- The ideal camera offset for a target row: center it in the safe zone,
clamped to the scrollable range (the first lines of `smart_move_camera`). -/
def idealCamY (cfg : TDConfig) (meta : MapMeta) (target_map_y : ℚ) : ℚ :=
  let safe_center_screen_y := ((cfg.safe_zone.2.1 + cfg.safe_zone.2.2.2 : Int) : ℚ) / 2
  let max_scroll_y := max (meta.bottom - cfg.screen_height) 0
  min (max (target_map_y - safe_center_screen_y) 0) max_scroll_y

/-- `TowerDefenseApp::smart_move_camera`: below a 90-px delta do nothing;
otherwise align to the nearer edge and fine-scroll the residual. Returns
whether a physical move occurred. -/
def smart_move_camera (cfg : TDConfig) (meta : MapMeta) (st : TDState)
    (target_map_y : ℚ) : Bool × TDState × List TDEvent :=
  let max_scroll_y := max (meta.bottom - cfg.screen_height) 0
  let ideal_cam_y := idealCamY cfg meta target_map_y
  let delta := ideal_cam_y - st.camera_offset_y
  if |delta| < 90 then (false, st, [])
  else
    let mid_scroll := max_scroll_y / 2
    if ideal_cam_y ≤ mid_scroll then
      let (st1, ev1) := align_camera_to_edge cfg meta st true
      let st2 := { st1 with camera_offset_y := 0 }
      if 10 < ideal_cam_y then
        let (moved, ev2) := scroll_camera_by_pixels 's' ideal_cam_y 100
        (true, { st2 with camera_offset_y := st2.camera_offset_y + moved },
          ev1 ++ ev2 ++ [TDEvent.sleep 200])
      else (true, st2, ev1 ++ [TDEvent.sleep 200])
    else
      let (st1, ev1) := align_camera_to_edge cfg meta st false
      let st2 := { st1 with camera_offset_y := max_scroll_y }
      let dist_up := max_scroll_y - ideal_cam_y
      if 10 < dist_up then
        let (moved, ev2) := scroll_camera_by_pixels 'w' dist_up 100
        (true, { st2 with camera_offset_y := st2.camera_offset_y - moved },
          ev1 ++ ev2 ++ [TDEvent.sleep 200])
      else (true, st2, ev1 ++ [TDEvent.sleep 200])

/-- `TowerDefenseApp::perform_demolish_action`: move, click-select, double
`'e'` press, and record the uid as demolished. -/
def perform_demolish_action (cfg : TDConfig) (st : TDState) (map_x map_y : ℚ)
    (uid : Nat) : TDState × List TDEvent :=
  let screen_x := min (max (map_x - 0) ((cfg.safe_zone.1 : Int) : ℚ)) ((cfg.safe_zone.2.2.1 : Int) : ℚ)
  let screen_y := min (max (map_y - st.camera_offset_y) ((cfg.safe_zone.2.1 : Int) : ℚ))
    ((cfg.safe_zone.2.2.2 : Int) : ℚ)
  ({ st with completed_demolish_uids := insert uid st.completed_demolish_uids },
   [TDEvent.actDemolish uid, TDEvent.moveTo screen_x screen_y, TDEvent.sleep 50,
    TDEvent.click, TDEvent.sleep 150, TDEvent.keyClick 'e', TDEvent.sleep 100,
    TDEvent.keyClick 'e', TDEvent.sleep 200])

/-- Which tool-selection branch `perform_build_action` took. -/
inductive KeyRefreshKind
  | threeStep
  | single
  | skip
deriving DecidableEq, Repr

/-- Ghost record of one build action's branch decision (derived bookkeeping;
the events are the observable behaviour). `rawMoved` is what
`smart_move_camera` returned; `effMoved` is `screen_moved` after the
first-task force flag; `key` is the required tool key. -/
structure BuildReport where
  uid : Nat
  rawMoved : Bool
  effMoved : Bool
  lastKeyBefore : Option Char
  key : Char
  refresh : KeyRefreshKind
deriving DecidableEq, Repr

/-- `TowerDefenseApp::perform_build_action`: three-step key refresh when the
screen just moved or no tower was built yet in this batch (`last_key`
`None`); a single key press when the tool changed; nothing when it is the
same tool. Returns the updated state, the new `last_key`, the branch taken,
and the events. -/
def perform_build_action (cfg : TDConfig) (active_loadout : List String)
    (st : TDState) (last_key : Option Char) (screen_moved : Bool)
    (map_x map_y : ℚ) (name : String) (uid : Nat) :
    TDState × Option Char × KeyRefreshKind × List TDEvent :=
  let screen_x := min (max (map_x - 0) ((cfg.safe_zone.1 : Int) : ℚ)) ((cfg.safe_zone.2.2.1 : Int) : ℚ)
  let screen_y := min (max (map_y - st.camera_offset_y) ((cfg.safe_zone.2.1 : Int) : ℚ))
    ((cfg.safe_zone.2.2.2 : Int) : ℚ)
  let key := get_trap_key active_loadout name
  let st2 := { st with placed_uids := insert uid st.placed_uids }
  if screen_moved ∨ last_key = none then
    let swap_key := if key = '4' then '5' else '4'
    (st2, some key, KeyRefreshKind.threeStep,
     [TDEvent.actPlace uid, TDEvent.moveTo screen_x screen_y, TDEvent.sleep 50,
      TDEvent.keyClick key, TDEvent.sleep 120, TDEvent.keyClick swap_key,
      TDEvent.sleep 120, TDEvent.keyClick key, TDEvent.sleep 250,
      TDEvent.doubleClick, TDEvent.sleep 250])
  else if some key ≠ last_key then
    (st2, some key, KeyRefreshKind.single,
     [TDEvent.actPlace uid, TDEvent.moveTo screen_x screen_y, TDEvent.sleep 50,
      TDEvent.keyClick key, TDEvent.sleep 250, TDEvent.doubleClick, TDEvent.sleep 250])
  else
    (st2, last_key, KeyRefreshKind.skip,
     [TDEvent.actPlace uid, TDEvent.moveTo screen_x screen_y, TDEvent.sleep 50,
      TDEvent.sleep 50, TDEvent.doubleClick, TDEvent.sleep 250])

/-- `TowerDefenseApp::execute_single_upgrade`: hold the tool key and record
the upgrade key as completed. -/
def execute_single_upgrade (active_loadout : List String) (st : TDState)
    (u : UpgradeEvent) : TDState × List TDEvent :=
  let key := get_trap_key active_loadout u.building_name
  let key_str := fmtKey u.building_name u.wave_num u.is_late
  ({ st with completed_upgrade_keys := insert key_str st.completed_upgrade_keys },
   [TDEvent.actUpgrade key_str, TDEvent.keyHold key 1500, TDEvent.sleep 400])

/-- Accumulator of the `process_task_batch` loop: state, `last_build_key`,
`is_first_task`, and the accumulated events and build reports. -/
structure BatchAcc where
  st : TDState
  last_build_key : Option Char
  is_first_task : Bool
  events : List TDEvent
  reports : List BuildReport

/-- One iteration of the `for task in tasks` loop of `process_task_batch`. -/
def batchStep (cfg : TDConfig) (meta : MapMeta) (active_loadout : List String)
    (force_initial_refresh : Bool) (acc : BatchAcc) (task : ScheduledTask) : BatchAcc :=
  match task.action with
  | TaskAction.upgrade u =>
    let r := execute_single_upgrade active_loadout acc.st u
    { acc with st := r.1, events := acc.events ++ r.2 }
  | TaskAction.demolish d =>
    let mv := smart_move_camera cfg meta acc.st task.map_y
    let is_first2 := if acc.is_first_task ∧ force_initial_refresh then false else acc.is_first_task
    let r := perform_demolish_action cfg mv.2.1 task.map_x task.map_y d.uid
    { acc with st := r.1, is_first_task := is_first2, events := acc.events ++ mv.2.2 ++ r.2 }
  | TaskAction.place b =>
    let mv := smart_move_camera cfg meta acc.st task.map_y
    let screen_moved := mv.1 ∨ (acc.is_first_task ∧ force_initial_refresh)
    let is_first2 := if acc.is_first_task ∧ force_initial_refresh then false else acc.is_first_task
    let r := perform_build_action cfg active_loadout mv.2.1 acc.last_build_key screen_moved
      task.map_x task.map_y b.name b.uid
    { st := r.1, last_build_key := r.2.1, is_first_task := is_first2,
      events := acc.events ++ mv.2.2 ++ r.2.2.2,
      reports := acc.reports ++
        [⟨b.uid, mv.1, screen_moved, acc.last_build_key,
          get_trap_key active_loadout b.name, r.2.2.1⟩] }

/-- `TowerDefenseApp::process_task_batch`. -/
def process_task_batch (cfg : TDConfig) (meta : MapMeta) (active_loadout : List String)
    (st : TDState) (tasks : List ScheduledTask) (force_initial_refresh : Bool) :
    TDState × List TDEvent × List BuildReport :=
  let acc := tasks.foldl (batchStep cfg meta active_loadout force_initial_refresh)
    ⟨st, none, true, [], []⟩
  (acc.st, acc.events, acc.reports)

/-- Upper-region dispatch order: row ascending, ties by priority (Rust
`sort_by` is stable; with this total preorder the stable sort is unique, so
`mergeSort` computes the same list). -/
def taskUpLe (a b : ScheduledTask) : Bool :=
  decide (a.map_y < b.map_y ∨ (a.map_y = b.map_y ∧ a.priority ≤ b.priority))

/-- Lower-region dispatch order: row descending, ties by priority. -/
def taskDownLe (a b : ScheduledTask) : Bool :=
  decide (b.map_y < a.map_y ∨ (a.map_y = b.map_y ∧ a.priority ≤ b.priority))

/-- One region's dispatch inside `dispatch_tasks_by_region`: skip an empty
region; dispatch in place when all rows are inside the current view;
otherwise edge-align (`top` picks the edge) and dispatch with the
first-action force flag. -/
def dispatch_region_half (cfg : TDConfig) (meta : MapMeta) (active_loadout : List String)
    (st : TDState) (raw sorted : List ScheduledTask) (top : Bool) :
    TDState × List TDEvent × List BuildReport :=
  if raw.isEmpty then (st, [], [])
  else if are_tasks_in_current_view cfg st.camera_offset_y sorted then
    process_task_batch cfg meta active_loadout st sorted false
  else
    let a := align_camera_to_edge cfg meta st top
    let b := process_task_batch cfg meta active_loadout a.1 sorted true
    (b.1, a.2 ++ b.2.1, b.2.2)

/-- The region-partition predicate of `dispatch_tasks_by_region`: a task
belongs to the upper region when its row is at most
`mid_point + screen_height / 2`. -/
def regionPred (cfg : TDConfig) (meta : MapMeta) (t : ScheduledTask) : Bool :=
  decide (t.map_y ≤ (meta.bottom - cfg.screen_height) / 2 + cfg.screen_height / 2)

/-- `TowerDefenseApp::dispatch_tasks_by_region`: partition at the map's
vertical midpoint, sort each region (ascending rows above, descending
below), then run the upper region and the lower region in that order. -/
def dispatch_tasks_by_region (cfg : TDConfig) (meta : MapMeta)
    (active_loadout : List String) (st : TDState) (tasks : List ScheduledTask) :
    TDState × List TDEvent × List BuildReport :=
  let pr := tasks.partition (regionPred cfg meta)
  let r1 := dispatch_region_half cfg meta active_loadout st pr.1
    (pr.1.mergeSort taskUpLe) true
  let r2 := dispatch_region_half cfg meta active_loadout r1.1 pr.2
    (pr.2.mergeSort taskDownLe) false
  (r2.1, r1.2.1 ++ r2.2.1, r1.2.2 ++ r2.2.2)

/-- The upper region of a dispatch call, in its dispatch order. -/
def upperTasks (cfg : TDConfig) (meta : MapMeta) (tasks : List ScheduledTask) :
    List ScheduledTask :=
  (tasks.filter (regionPred cfg meta)).mergeSort taskUpLe

/-- The lower region of a dispatch call, in its dispatch order. -/
def lowerTasks (cfg : TDConfig) (meta : MapMeta) (tasks : List ScheduledTask) :
    List ScheduledTask :=
  (tasks.filter (not ∘ regionPred cfg meta)).mergeSort taskDownLe

/-- The demolish-task collection loop of `execute_wave_phase`. -/
def collectDemolishTasks (ctx : TDCtx) (st : TDState) (wave : Int) (is_late : Bool) :
    List ScheduledTask :=
  ctx.strategy_demolishes.filterMap fun d =>
    if d.wave_num = wave ∧ d.is_late = is_late ∧ d.uid ∉ st.completed_demolish_uids then
      (get_absolute_map_pixel ctx.map_meta d.grid_x d.grid_y d.width d.height).map
        fun p => { action := TaskAction.demolish d, map_y := p.2, map_x := p.1, priority := 0 }
    else none

/-- The building-task collection loop of `execute_wave_phase`. -/
def collectBuildTasks (ctx : TDCtx) (st : TDState) (wave : Int) (is_late : Bool) :
    List ScheduledTask :=
  ctx.strategy_buildings.filterMap fun b =>
    if b.wave_num = wave ∧ b.is_late = is_late ∧ b.uid ∉ st.placed_uids then
      (get_absolute_map_pixel ctx.map_meta b.grid_x b.grid_y b.width b.height).map
        fun p => { action := TaskAction.place b, map_y := p.2, map_x := p.1, priority := 1 }
    else none

/-- The upgrade-task collection loop of `execute_wave_phase`. -/
def collectUpgradeTasks (ctx : TDCtx) (st : TDState) (wave : Int) (is_late : Bool) :
    List ScheduledTask :=
  ctx.strategy_upgrades.filterMap fun u =>
    if u.wave_num = wave ∧ u.is_late = is_late ∧
        fmtKey u.building_name u.wave_num u.is_late ∉ st.completed_upgrade_keys then
      some { action := TaskAction.upgrade u, map_y := 0, map_x := 0, priority := 2 }
    else none

/-- `TowerDefenseApp::execute_wave_phase`: collect the wave's pending
demolish tasks and build/upgrade tasks, dispatch all demolishes first, then
the build/upgrade list sorted by priority. `none` models the panic of the
`map_meta` unwrap in `dispatch_tasks_by_region` when no terrain is loaded
(possible only with upgrade tasks, and before any dispatch). -/
def execute_wave_phase (ctx : TDCtx) (st : TDState) (wave : Int) (is_late : Bool) :
    Option (TDState × List TDEvent × List BuildReport) :=
  let demolish_tasks := collectDemolishTasks ctx st wave is_late
  let build_upgrade_tasks :=
    collectBuildTasks ctx st wave is_late ++ collectUpgradeTasks ctx st wave is_late
  if demolish_tasks.isEmpty ∧ build_upgrade_tasks.isEmpty then some (st, [], [])
  else
    match ctx.map_meta with
    | none => none
    | some meta =>
      let r1 :=
        if demolish_tasks.isEmpty then (st, ([] : List TDEvent), ([] : List BuildReport))
        else dispatch_tasks_by_region ctx.config meta ctx.active_loadout st demolish_tasks
      let r2 :=
        if build_upgrade_tasks.isEmpty then (r1.1, ([] : List TDEvent), ([] : List BuildReport))
        else
          let sortedBU := build_upgrade_tasks.mergeSort
            (fun a b => decide (a.priority ≤ b.priority))
          dispatch_tasks_by_region ctx.config meta ctx.active_loadout r1.1 sortedBU
      some (r2.1, r1.2.1 ++ r2.2.1, r1.2.2 ++ r2.2.2)

/-- A sequence of `execute_wave_phase` calls; `none` records a panic (the
trace keeps the events of the completed calls). -/
def runPhases (ctx : TDCtx) : List (Int × Bool) → TDState → Option TDState × List TDEvent
  | [], st => (some st, [])
  | c :: cs, st =>
    match execute_wave_phase ctx st c.1 c.2 with
    | none => (none, [])
    | some (st2, ev, _) =>
      let r := runPhases ctx cs st2
      (r.1, ev ++ r.2)

/-- The dispatch labels of an event trace (which actions were dispatched, in
order). -/
def dispatchLabels (evs : List TDEvent) : List TDEvent :=
  evs.filter fun e =>
    match e with
    | TDEvent.actDemolish _ => true
    | TDEvent.actPlace _ => true
    | TDEvent.actUpgrade _ => true
    | _ => false

/-- The dispatch label of a task: which action dispatching it performs. -/
def taskLabel (t : ScheduledTask) : TDEvent :=
  match t.action with
  | TaskAction.demolish d => TDEvent.actDemolish d.uid
  | TaskAction.place b => TDEvent.actPlace b.uid
  | TaskAction.upgrade u => TDEvent.actUpgrade (fmtKey u.building_name u.wave_num u.is_late)

def taskPlaceUid (t : ScheduledTask) : Option Nat :=
  match t.action with
  | TaskAction.place b => some b.uid
  | _ => none

def taskDemUid (t : ScheduledTask) : Option Nat :=
  match t.action with
  | TaskAction.demolish d => some d.uid
  | _ => none

def taskUpgKey (t : ScheduledTask) : Option String :=
  match t.action with
  | TaskAction.upgrade u => some (fmtKey u.building_name u.wave_num u.is_late)
  | _ => none

def placeUidsT (tasks : List ScheduledTask) : List Nat := tasks.filterMap taskPlaceUid

def demUidsT (tasks : List ScheduledTask) : List Nat := tasks.filterMap taskDemUid

def upgKeysT (tasks : List ScheduledTask) : List String := tasks.filterMap taskUpgKey

/-- The uids of the build actions dispatched in a trace, in dispatch order. -/
def placedOf (evs : List TDEvent) : List Nat :=
  evs.filterMap fun e => match e with
    | TDEvent.actPlace u => some u
    | _ => none

/-- The uids of the demolish actions dispatched in a trace. -/
def demolishedOf (evs : List TDEvent) : List Nat :=
  evs.filterMap fun e => match e with
    | TDEvent.actDemolish u => some u
    | _ => none

/-- The upgrade keys dispatched in a trace. -/
def upgradedOf (evs : List TDEvent) : List String :=
  evs.filterMap fun e => match e with
    | TDEvent.actUpgrade k => some k
    | _ => none

/-- The code's tool-selection branch condition for one build action: the
three iffs that hold of every `BuildReport` the batch loop produces. -/
def buildBranchOk (r : BuildReport) : Prop :=
  (r.refresh = KeyRefreshKind.threeStep ↔ (r.effMoved = true ∨ r.lastKeyBefore = none)) ∧
  (r.refresh = KeyRefreshKind.single ↔
    (r.effMoved = false ∧ r.lastKeyBefore ≠ none ∧ some r.key ≠ r.lastKeyBefore)) ∧
  (r.refresh = KeyRefreshKind.skip ↔ (r.effMoved = false ∧ some r.key = r.lastKeyBefore))

/-- Claim C8 as stated by the spec, over the build actions of one batch: the
three-step refresh happens exactly when the camera just moved for the
action (including the freshly-aligned first-action force, i.e. `effMoved`);
otherwise a single key press exactly when the tool differs from the last
placed one, and no key press for the same tool. -/
def buildRefreshClaim (reports : List BuildReport) : Prop :=
  ∀ r ∈ reports,
    (r.refresh = KeyRefreshKind.threeStep ↔ r.effMoved = true) ∧
    (r.refresh = KeyRefreshKind.single ↔
      (r.effMoved = false ∧ some r.key ≠ r.lastKeyBefore)) ∧
    (r.refresh = KeyRefreshKind.skip ↔
      (r.effMoved = false ∧ some r.key = r.lastKeyBefore))

/-- A small concrete context: a loaded map and a strategy with two buildings,
one upgrade and one demolish, all ids distinct. -/
def c5ctx : TDCtx :=
  { config := TDConfig.default, map_meta := some ⟨10, 0, 0, 1080, []⟩,
    strategy_buildings := [⟨7, "spike", 0, 0, 1, 1, 1, false⟩, ⟨8, "spike", 2, 0, 1, 1, 1, false⟩],
    strategy_upgrades := [⟨"spike", 2, false⟩],
    strategy_demolishes := [⟨9, "spike", 1, 1, 1, 1, 2, true⟩],
    active_loadout := ["spike"] }

/-- A fresh scheduler state: empty completion sets, camera at the top. -/
def c5st : TDState := ⟨∅, ∅, ∅, 0⟩

/-- A concrete context with a loaded map and a strategy holding a single
wave-1 upgrade event. -/
def c6ctx : TDCtx :=
  { config := TDConfig.default, map_meta := some ⟨10, 0, 0, 1080, []⟩,
    strategy_buildings := [], strategy_upgrades := [⟨"spike", 1, false⟩],
    strategy_demolishes := [], active_loadout := ["spike"] }

/-! ## Theorems: C1 (scene matching), C3 (wave validation), C10 (HID codes) -/

/-- Claim C1: `get_match_score` declares a scene matched (positive score) iff
under AND logic every anchor passes and there is at least one anchor, and
under OR logic at least one anchor passes; a scene with no anchors (missing
table or empty lists) is never matched; a color anchor passes iff the summed
per-channel absolute difference between sampled and expected RGB is at most
`3 * tolerance`; a text anchor passes iff the OCR text contains the expected
substring. -/
theorem C1_scene_matcher_score (m : SceneMap) (id : String)
    (textOk : TextAnchor → Bool) (colorOk : ColorAnchor → Bool)
    (scene : Scene) (hlook : sceneGet m id = some scene) :
    (scene.anchors = none → get_match_score m id textOk colorOk = 0) ∧
    (∀ anchors, scene.anchors = some anchors →
      (anchorTexts anchors).length + (anchorColors anchors).length = 0 →
      get_match_score m id textOk colorOk = 0) ∧
    (∀ anchors, scene.anchors = some anchors → isOrLogic scene.logic = false →
      (0 < get_match_score m id textOk colorOk ↔
        ((anchorTexts anchors).length + (anchorColors anchors).length ≠ 0 ∧
          (∀ a ∈ anchorTexts anchors, textOk a = true) ∧
          (∀ a ∈ anchorColors anchors, colorOk a = true)))) ∧
    (∀ anchors, scene.anchors = some anchors → isOrLogic scene.logic = true →
      (0 < get_match_score m id textOk colorOk ↔
        ((∃ a ∈ anchorTexts anchors, textOk a = true) ∨
          (∃ a ∈ anchorColors anchors, colorOk a = true)))) ∧
    (∀ r g b er eg eb tol,
      (check_color_anchor (some (r, g, b)) (er, eg, eb) tol = true ↔
        ((r : Int) - er).natAbs + ((g : Int) - eg).natAbs + ((b : Int) - eb).natAbs
          ≤ tol * 3)) ∧
    (∀ ocrOutput expected,
      (check_text_anchor ocrOutput expected = true ↔
        List.IsInfix expected.data ocrOutput.data)) := by
  refine ⟨?_, ?_, ?_, ?_, ?_, ?_⟩
  · intro hnone
    simp [get_match_score, hlook, hnone]
  · intro anchors hsome htot
    have ht : (anchorTexts anchors).countP textOk = 0 := by
      have := List.countP_le_length (p := textOk) (l := anchorTexts anchors)
      omega
    have hc : (anchorColors anchors).countP colorOk = 0 := by
      have := List.countP_le_length (p := colorOk) (l := anchorColors anchors)
      omega
    simp only [get_match_score, hlook, hsome, ht, hc]
    split <;> simp [htot]
  · intro anchors hsome hand
    simp only [get_match_score, hlook, hsome, hand, Bool.false_eq_true, if_false]
    have hle1 : (anchorTexts anchors).countP textOk ≤ (anchorTexts anchors).length :=
      List.countP_le_length _
    have hle2 : (anchorColors anchors).countP colorOk ≤ (anchorColors anchors).length :=
      List.countP_le_length _
    constructor
    · intro hpos
      by_cases hp : ((anchorTexts anchors).countP textOk + (anchorColors anchors).countP colorOk =
          (anchorTexts anchors).length + (anchorColors anchors).length ∧
          0 < (anchorTexts anchors).length + (anchorColors anchors).length)
      · exact ⟨by omega, List.countP_eq_length.mp (by omega), List.countP_eq_length.mp (by omega)⟩
      · rw [if_neg hp] at hpos
        exact absurd hpos (Nat.lt_irrefl 0)
    · rintro ⟨htot, htext, hcolor⟩
      have h1 : (anchorTexts anchors).countP textOk = (anchorTexts anchors).length :=
        List.countP_eq_length.mpr htext
      have h2 : (anchorColors anchors).countP colorOk = (anchorColors anchors).length :=
        List.countP_eq_length.mpr hcolor
      rw [if_pos (by omega)]
      omega
  · intro anchors hsome hor
    simp only [get_match_score, hlook, hsome, hor, if_true]
    have hiff : 0 < (anchorTexts anchors).countP textOk + (anchorColors anchors).countP colorOk ↔
        ((∃ a ∈ anchorTexts anchors, textOk a = true) ∨
          (∃ a ∈ anchorColors anchors, colorOk a = true)) := by
      constructor
      · intro hp
        rcases Nat.lt_or_ge 0 ((anchorTexts anchors).countP textOk) with h | h
        · exact Or.inl (List.countP_pos_iff.mp h)
        · exact Or.inr (List.countP_pos_iff.mp (by omega))
      · rintro (h | h)
        · have := List.countP_pos_iff.mpr h
          omega
        · have := List.countP_pos_iff.mpr h
          omega
    constructor
    · intro hpos
      apply hiff.mp
      by_contra hp
      rw [if_neg hp] at hpos
      exact Nat.lt_irrefl 0 hpos
    · intro h
      have hp := hiff.mpr h
      rw [if_pos hp]
      exact hp
  · intro r g b er eg eb tol
    simp [check_color_anchor]
  · intro ocrOutput expected
    simp [check_text_anchor, stringContains]

/-- Concrete instantiation of C1: a one-color-anchor AND scene matched by an
all-pass oracle. -/
theorem C1_scene_matcher_score_witness :
    0 < get_match_score
      [("s", { id := "s", logic := "", anchors := some ⟨none, some [⟨(1, 2), (10, 20, 30), 5⟩]⟩,
               transitions := none })] "s" (fun _ => true) (fun _ => true) := by
  have h := C1_scene_matcher_score
    [("s", { id := "s", logic := "", anchors := some ⟨none, some [⟨(1, 2), (10, 20, 30), 5⟩]⟩,
             transitions := none })] "s" (fun _ => true) (fun _ => true)
    { id := "s", logic := "", anchors := some ⟨none, some [⟨(1, 2), (10, 20, 30), 5⟩]⟩,
      transitions := none } (by decide)
  exact (h.2.2.1 ⟨none, some [⟨(1, 2), (10, 20, 30), 5⟩]⟩ rfl (by decide)).mpr
    (by exact ⟨by decide, by decide, by decide⟩)

/-- Claim C3: `validate_wave_transition` accepts exactly when the detected
wave is `last_confirmed + 1` and either at least 60 (truncated) seconds have
elapsed since the last confirmed change or `last_confirmed = 0`; on accept it
stores the detected wave and resets the timestamp to now; on reject it leaves
the state unchanged. -/
theorem C3_validate_wave_transition (st : WaveState) (now : Nat) (d : Int) :
    ((validate_wave_transition st now d).1 = true ↔
      (d = st.last_confirmed_wave + 1 ∧
        (60000 ≤ now - st.last_wave_change_time ∨ st.last_confirmed_wave = 0))) ∧
    ((validate_wave_transition st now d).1 = true →
      (validate_wave_transition st now d).2 =
        { last_confirmed_wave := d, last_wave_change_time := now }) ∧
    ((validate_wave_transition st now d).1 = false →
      (validate_wave_transition st now d).2 = st) := by
  have hsec : 60 ≤ (now - st.last_wave_change_time) / 1000 ↔
      60000 ≤ now - st.last_wave_change_time := by
    rw [Nat.le_div_iff_mul_le (by norm_num : 0 < 1000)]
  have hcond : ((d == st.last_confirmed_wave + 1) &&
      (decide (60 ≤ (now - st.last_wave_change_time) / 1000) ||
        st.last_confirmed_wave == 0)) = true ↔
      (d = st.last_confirmed_wave + 1 ∧
        (60000 ≤ now - st.last_wave_change_time ∨ st.last_confirmed_wave = 0)) := by
    simp only [Bool.and_eq_true, Bool.or_eq_true, beq_iff_eq, decide_eq_true_eq, hsec]
  by_cases hc : (d = st.last_confirmed_wave + 1 ∧
      (60000 ≤ now - st.last_wave_change_time ∨ st.last_confirmed_wave = 0))
  · have hres : validate_wave_transition st now d =
        (true, { last_confirmed_wave := d, last_wave_change_time := now }) := by
      unfold validate_wave_transition
      rw [if_pos (hcond.mpr hc)]
    rw [hres]
    exact ⟨by simpa using hc, fun _ => rfl, by simp⟩
  · have hres : validate_wave_transition st now d = (false, st) := by
      unfold validate_wave_transition
      rw [if_neg (fun h => hc (hcond.mp h))]
    rw [hres]
    exact ⟨by simpa using hc, by simp, fun _ => rfl⟩

/-- Concrete instantiation of C3: from wave 1 confirmed at t=0ms, wave 2
detected at t=70000ms is accepted and the state is updated. -/
theorem C3_validate_wave_transition_witness :
    (validate_wave_transition ⟨1, 0⟩ 70000 2).1 = true ∧
    (validate_wave_transition ⟨1, 0⟩ 70000 2).2 =
      { last_confirmed_wave := 2, last_wave_change_time := 70000 } := by
  have h := C3_validate_wave_transition ⟨1, 0⟩ 70000 2
  have h1 : (validate_wave_transition ⟨1, 0⟩ 70000 2).1 = true :=
    h.1.mpr ⟨by decide, Or.inl (by norm_num)⟩
  exact ⟨h1, h.2.1 h1⟩

/-- Claim C10 (code bug): `get_hid_code`'s digit branch computes
`c as u8 - b'1'`, which underflows for the in-range input `'0'` (code 48);
in a release build the wrapped result is `0x1D` (colliding with the code for
`'z'`), while the sibling `char_to_keycode` in src/human.rs special-cases
`'0'` to the intended HID code `0x27`. -/
theorem C10_get_hid_code_zero_underflow :
    get_hid_code_digit_underflows '0' = true ∧
    get_hid_code '0' = 0x1D ∧
    get_hid_code 'z' = 0x1D ∧
    char_to_keycode '0' = 0x27 ∧
    get_hid_code '1' = 0x1E ∧
    get_hid_code '9' = 0x26 := by
  refine ⟨by decide, by decide, by decide, by decide, by decide, by decide⟩

/-! ## Lemmas for the identification scan -/

lemma scanFold_keeps_some (hint : Option String) (s : String → Nat) :
    ∀ (l : List (String × Scene)) (v : String) (mx : Nat),
    ∃ u mx2, l.foldl (scanStep hint s) (some v, mx) = (some u, mx2) := by
  intro l
  induction l with
  | nil => exact fun v mx => ⟨v, mx, rfl⟩
  | cons p l ih =>
    intro v mx
    rw [List.foldl_cons]
    by_cases hskip : hint = some p.1
    · rw [show scanStep hint s (some v, mx) p = (some v, mx) from by simp [scanStep, hskip]]
      exact ih v mx
    · by_cases hcond : 0 < s p.1 ∧ mx < s p.1
      · rw [show scanStep hint s (some v, mx) p = (some p.1, s p.1) from by
          simp [scanStep, hskip, hcond]]
        exact ih p.1 (s p.1)
      · rw [show scanStep hint s (some v, mx) p = (some v, mx) from by
          simp [scanStep, hskip, hcond]]
        exact ih v mx

lemma scanFold_none_iff (hint : Option String) (s : String → Nat) :
    ∀ (l : List (String × Scene)) (mx : Nat),
    (l.foldl (scanStep hint s) (none, mx)).1 = none ↔
      ∀ p ∈ l, hint ≠ some p.1 → s p.1 ≤ mx := by
  intro l
  induction l with
  | nil => simp
  | cons p l ih =>
    intro mx
    rw [List.foldl_cons]
    by_cases hskip : hint = some p.1
    · rw [show scanStep hint s (none, mx) p = (none, mx) from by simp [scanStep, hskip]]
      rw [ih mx]
      constructor
      · intro h r hr hhr
        rcases List.mem_cons.mp hr with rfl | hr
        · exact absurd hskip hhr
        · exact h r hr hhr
      · intro h r hr hhr
        exact h r (List.mem_cons_of_mem _ hr) hhr
    · by_cases hcond : 0 < s p.1 ∧ mx < s p.1
      · rw [show scanStep hint s (none, mx) p = (some p.1, s p.1) from by
          simp [scanStep, hskip, hcond]]
        obtain ⟨u, mx2, hu⟩ := scanFold_keeps_some hint s l p.1 (s p.1)
        rw [hu]
        simp only [reduceCtorEq, false_iff, not_forall]
        exact ⟨p, List.mem_cons_self _ _, hskip, by omega⟩
      · rw [show scanStep hint s (none, mx) p = (none, mx) from by
          simp [scanStep, hskip, hcond]]
        rw [ih mx]
        constructor
        · intro h r hr hhr
          rcases List.mem_cons.mp hr with rfl | hr
          · omega
          · exact h r hr hhr
        · intro h r hr hhr
          exact h r (List.mem_cons_of_mem _ hr) hhr

lemma scanFold_some_iff (hint : Option String) (s : String → Nat) (w : String) :
    ∀ (l : List (String × Scene)) (b : Option String) (mx : Nat),
    (l.foldl (scanStep hint s) (b, mx)).1 = some w ↔
      ((b = some w ∧ ∀ p ∈ l, hint ≠ some p.1 → s p.1 ≤ mx) ∨
        (∃ pre q post, l = pre ++ q :: post ∧ q.1 = w ∧ hint ≠ some w ∧
          0 < s w ∧ mx < s w ∧
          (∀ r ∈ pre, hint ≠ some r.1 → s r.1 < s w) ∧
          (∀ r ∈ post, hint ≠ some r.1 → s r.1 ≤ s w))) := by
  intro l
  induction l with
  | nil =>
    intro b mx
    constructor
    · intro h
      exact Or.inl ⟨h, by simp⟩
    · rintro (⟨h, _⟩ | ⟨pre, q, post, habs, _⟩)
      · exact h
      · exact absurd habs (by simp)
  | cons p l ih =>
    intro b mx
    rw [List.foldl_cons]
    by_cases hskip : hint = some p.1
    · rw [show scanStep hint s (b, mx) p = (b, mx) from by simp [scanStep, hskip]]
      rw [ih b mx]
      constructor
      · rintro (⟨hb, hall⟩ | ⟨pre, q, post, hl, hq, hw, hpos, hmx, hpre, hpost⟩)
        · refine Or.inl ⟨hb, ?_⟩
          intro r hr hhr
          rcases List.mem_cons.mp hr with rfl | hr
          · exact absurd hskip hhr
          · exact hall r hr hhr
        · refine Or.inr ⟨p :: pre, q, post, by rw [hl, List.cons_append], hq, hw, hpos, hmx, ?_, hpost⟩
          intro r hr hhr
          rcases List.mem_cons.mp hr with rfl | hr
          · exact absurd hskip hhr
          · exact hpre r hr hhr
      · rintro (⟨hb, hall⟩ | ⟨pre, q, post, hl, hq, hw, hpos, hmx, hpre, hpost⟩)
        · refine Or.inl ⟨hb, ?_⟩
          intro r hr hhr
          exact hall r (List.mem_cons_of_mem _ hr) hhr
        · cases pre with
          | nil =>
            simp only [List.nil_append] at hl
            obtain ⟨rfl, rfl⟩ : q = p ∧ post = l :=
              ⟨(List.cons_eq_cons.mp hl).1.symm, (List.cons_eq_cons.mp hl).2.symm⟩
            subst hq
            exact absurd hskip hw
          | cons p2 pre2 =>
            rw [List.cons_append] at hl
            obtain ⟨rfl, hl2⟩ : p = p2 ∧ l = pre2 ++ q :: post :=
              ⟨(List.cons_eq_cons.mp hl).1, (List.cons_eq_cons.mp hl).2⟩
            refine Or.inr ⟨pre2, q, post, hl2, hq, hw, hpos, hmx, ?_, hpost⟩
            intro r hr hhr
            exact hpre r (List.mem_cons_of_mem _ hr) hhr
    · by_cases hcond : 0 < s p.1 ∧ mx < s p.1
      · rw [show scanStep hint s (b, mx) p = (some p.1, s p.1) from by
          simp [scanStep, hskip, hcond]]
        rw [ih (some p.1) (s p.1)]
        constructor
        · rintro (⟨hb, hall⟩ | ⟨pre, q, post, hl, hq, hw, hpos, hmx, hpre, hpost⟩)
          · have hw2 : p.1 = w := by injection hb
            subst hw2
            exact Or.inr ⟨[], p, l, by simp, rfl, hskip, hcond.1, hcond.2, by simp, hall⟩
          · refine Or.inr ⟨p :: pre, q, post, by rw [hl, List.cons_append], hq, hw, hpos,
              by omega, ?_, hpost⟩
            intro r hr hhr
            rcases List.mem_cons.mp hr with rfl | hr
            · omega
            · exact hpre r hr hhr
        · rintro (⟨hb, hall⟩ | ⟨pre, q, post, hl, hq, hw, hpos, hmx, hpre, hpost⟩)
          · have := hall p (List.mem_cons_self _ _) hskip
            omega
          · cases pre with
            | nil =>
              simp only [List.nil_append] at hl
              obtain ⟨rfl, rfl⟩ : q = p ∧ post = l :=
                ⟨(List.cons_eq_cons.mp hl).1.symm, (List.cons_eq_cons.mp hl).2.symm⟩
              subst hq
              exact Or.inl ⟨rfl, hpost⟩
            | cons p2 pre2 =>
              rw [List.cons_append] at hl
              obtain ⟨rfl, hl2⟩ : p = p2 ∧ l = pre2 ++ q :: post :=
                ⟨(List.cons_eq_cons.mp hl).1, (List.cons_eq_cons.mp hl).2⟩
              have hplt : s p.1 < s w := hpre p (List.mem_cons_self _ _) hskip
              refine Or.inr ⟨pre2, q, post, hl2, hq, hw, hpos, hplt, ?_, hpost⟩
              intro r hr hhr
              exact hpre r (List.mem_cons_of_mem _ hr) hhr
      · rw [show scanStep hint s (b, mx) p = (b, mx) from by
          simp [scanStep, hskip, hcond]]
        rw [ih b mx]
        have hple : s p.1 = 0 ∨ s p.1 ≤ mx := by
          by_contra hc
          push_neg at hc
          exact hcond ⟨by omega, by omega⟩
        constructor
        · rintro (⟨hb, hall⟩ | ⟨pre, q, post, hl, hq, hw, hpos, hmx, hpre, hpost⟩)
          · refine Or.inl ⟨hb, ?_⟩
            intro r hr hhr
            rcases List.mem_cons.mp hr with rfl | hr
            · omega
            · exact hall r hr hhr
          · refine Or.inr ⟨p :: pre, q, post, by rw [hl, List.cons_append], hq, hw, hpos, hmx, ?_,
              hpost⟩
            intro r hr hhr
            rcases List.mem_cons.mp hr with rfl | hr
            · omega
            · exact hpre r hr hhr
        · rintro (⟨hb, hall⟩ | ⟨pre, q, post, hl, hq, hw, hpos, hmx, hpre, hpost⟩)
          · refine Or.inl ⟨hb, ?_⟩
            intro r hr hhr
            exact hall r (List.mem_cons_of_mem _ hr) hhr
          · cases pre with
            | nil =>
              simp only [List.nil_append] at hl
              obtain ⟨rfl, rfl⟩ : q = p ∧ post = l :=
                ⟨(List.cons_eq_cons.mp hl).1.symm, (List.cons_eq_cons.mp hl).2.symm⟩
              subst hq
              omega
            | cons p2 pre2 =>
              rw [List.cons_append] at hl
              obtain ⟨rfl, hl2⟩ : p = p2 ∧ l = pre2 ++ q :: post :=
                ⟨(List.cons_eq_cons.mp hl).1, (List.cons_eq_cons.mp hl).2⟩
              refine Or.inr ⟨pre2, q, post, hl2, hq, hw, hpos, hmx, ?_, hpost⟩
              intro r hr hhr
              exact hpre r (List.mem_cons_of_mem _ hr) hhr

/-- Claim C9 (amended): `identify_current_scene` returns a scene of maximal
positive score, but ties are broken by the scene map's iteration order (the
first scene in iteration order whose score strictly exceeds every earlier
candidate's and is not exceeded later), not by declaration order; a hint that
scores positive short-circuits the scan and is returned directly; when the
hint is absent or scores zero, the result is `none` exactly when every
non-hint scene scores zero. The result is a function of the iteration order
and anchor outcomes, hence deterministic for a fixed engine instance. -/
theorem C9_identify_first_in_iteration_order (m : SceneMap) (hint : Option String)
    (textOk : TextAnchor → Bool) (colorOk : ColorAnchor → Bool) :
    (∀ h, hint = some h → 0 < sceneScore m textOk colorOk h →
      identify_current_scene m hint textOk colorOk = some h) ∧
    ((∀ h, hint = some h → sceneScore m textOk colorOk h = 0) →
      ((identify_current_scene m hint textOk colorOk = none ↔
          ∀ p ∈ m, hint ≠ some p.1 → sceneScore m textOk colorOk p.1 = 0) ∧
        (∀ w, identify_current_scene m hint textOk colorOk = some w ↔
          ∃ pre q post, m = pre ++ q :: post ∧ q.1 = w ∧ hint ≠ some w ∧
            0 < sceneScore m textOk colorOk w ∧
            (∀ r ∈ pre, hint ≠ some r.1 →
              sceneScore m textOk colorOk r.1 < sceneScore m textOk colorOk w) ∧
            (∀ r ∈ post, hint ≠ some r.1 →
              sceneScore m textOk colorOk r.1 ≤ sceneScore m textOk colorOk w)))) := by
  constructor
  · intro h hh hpos
    subst hh
    simp [identify_current_scene, hpos]
  · intro hmiss
    have hval : identify_current_scene m hint textOk colorOk =
        (identifyScan m hint textOk colorOk).1 := by
      match hint with
      | none => rfl
      | some h =>
          have := hmiss h rfl
          simp [identify_current_scene, this]
    constructor
    · rw [hval]
      unfold identifyScan
      rw [scanFold_none_iff]
      constructor
      · intro hz p hp hhp
        exact Nat.le_zero.mp (hz p hp hhp)
      · intro hz p hp hhp
        exact Nat.le_zero.mpr (hz p hp hhp)
    · intro w
      rw [hval]
      unfold identifyScan
      rw [scanFold_some_iff]
      constructor
      · rintro (⟨habs, _⟩ | ⟨pre, q, post, hl, hq, hw, hpos, _, hpre, hpost⟩)
        · exact absurd habs (by simp)
        · exact ⟨pre, q, post, hl, hq, hw, hpos, hpre, hpost⟩
      · rintro ⟨pre, q, post, hl, hq, hw, hpos, hpre, hpost⟩
        exact Or.inr ⟨pre, q, post, hl, hq, hw, hpos, hpos, hpre, hpost⟩

/-- Concrete instantiation of C9: with the hint scoring positive, the hint is
returned directly. -/
theorem C9_identify_first_in_iteration_order_witness :
    identify_current_scene
      [("s", { id := "s", logic := "", anchors := some ⟨none, some [⟨(1, 2), (10, 20, 30), 5⟩]⟩,
               transitions := none })] (some "s") (fun _ => true) (fun _ => true) = some "s" := by
  exact (C9_identify_first_in_iteration_order
    [("s", { id := "s", logic := "", anchors := some ⟨none, some [⟨(1, 2), (10, 20, 30), 5⟩]⟩,
             transitions := none })] (some "s") (fun _ => true) (fun _ => true)).1
    "s" rfl (by decide)

/-- Claim C9 counterexample: two scene maps holding the same scenes (a
permutation, i.e. the same `HashMap` content built from the same declaration
list) with tied positive scores yield different winners depending on
iteration order, so the tie cannot be broken by first-seen declaration order
and the result is not determined by the declared scene set. Scene "a" is
declared first, yet the map iterated in the order ["b", "a"] answers "b". -/
theorem C9_identify_counterexample :
    identify_current_scene
      [("b", { id := "b", logic := "or", anchors := some ⟨none, some [⟨(0, 0), (1, 2, 3), 1⟩]⟩,
               transitions := none }),
       ("a", { id := "a", logic := "or", anchors := some ⟨none, some [⟨(9, 9), (4, 5, 6), 1⟩]⟩,
               transitions := none })] none (fun _ => true) (fun _ => true) = some "b" ∧
    identify_current_scene
      [("a", { id := "a", logic := "or", anchors := some ⟨none, some [⟨(9, 9), (4, 5, 6), 1⟩]⟩,
               transitions := none }),
       ("b", { id := "b", logic := "or", anchors := some ⟨none, some [⟨(0, 0), (1, 2, 3), 1⟩]⟩,
               transitions := none })] none (fun _ => true) (fun _ => true) = some "a" ∧
    List.Perm
      ([("b", { id := "b", logic := "or", anchors := some ⟨none, some [⟨(0, 0), (1, 2, 3), 1⟩]⟩,
                transitions := none }),
        ("a", { id := "a", logic := "or", anchors := some ⟨none, some [⟨(9, 9), (4, 5, 6), 1⟩]⟩,
                transitions := none })] : SceneMap)
      ([("a", { id := "a", logic := "or", anchors := some ⟨none, some [⟨(9, 9), (4, 5, 6), 1⟩]⟩,
                transitions := none }),
        ("b", { id := "b", logic := "or", anchors := some ⟨none, some [⟨(0, 0), (1, 2, 3), 1⟩]⟩,
                transitions := none })] : SceneMap) ∧
    ("b" : String) ≠ "a" := by
  refine ⟨by decide, by decide, ?_, by decide⟩
  exact List.Perm.swap _ _ _

/-! ## Lemmas for the path planner (C2) -/

lemma MinLen.unique {m : SceneMap} {s v : String} {n n2 : Nat}
    (h1 : MinLen m s v n) (h2 : MinLen m s v n2) : n = n2 := by
  obtain ⟨⟨p1, hc1, hl1⟩, hmin1⟩ := h1
  obtain ⟨⟨p2, hc2, hl2⟩, hmin2⟩ := h2
  have ha := hmin1 p2 hc2
  have hb := hmin2 p1 hc1
  omega

lemma minLen_start (m : SceneMap) (s : String) : MinLen m s s 0 :=
  ⟨⟨[], Chains.nil s, rfl⟩, fun _ _ => Nat.zero_le _⟩

lemma Chains.append_one {m : SceneMap} {s u : String} {p : List Transition}
    (h : Chains m s p u) {t : Transition} (ht : t ∈ transOf m u) :
    Chains m s (p ++ [t]) t.target := by
  induction h with
  | nil v => exact Chains.cons ht (Chains.nil _)
  | cons ht2 _ ih => exact Chains.cons ht2 (ih ht)

lemma chain_stays {m : SceneMap} {V : List String}
    (hclosed : ∀ u ∈ V, ∀ t ∈ transOf m u, t.target ∈ V) :
    ∀ {a p w}, Chains m a p w → a ∈ V → w ∈ V := by
  intro a p w h
  induction h with
  | nil v => exact id
  | cons ht _ ih => exact fun ha => ih (hclosed _ ha _ ht)

lemma chain_crosses {m : SceneMap} {V : List String} :
    ∀ {a p w}, Chains m a p w → a ∈ V → w ∉ V →
    ∃ u t p1, u ∈ V ∧ t ∈ transOf m u ∧ t.target ∉ V ∧
      Chains m a p1 u ∧ p1.length < p.length := by
  intro a p w h
  induction h with
  | nil v => exact fun ha hw => absurd ha hw
  | @cons u w2 t p2 ht hc ih =>
    intro ha hw
    by_cases hx : t.target ∈ V
    · obtain ⟨u2, t2, p1, hu2, ht2, hnt2, hc1, hlen⟩ := ih hx hw
      exact ⟨u2, t2, t :: p1, hu2, ht2, hnt2, Chains.cons ht hc1, by
        simpa using Nat.succ_lt_succ hlen⟩
    · exact ⟨u, t, [], ha, ht, hx, Chains.nil u, by simp⟩

lemma transOf_target_mem_universe {m : SceneMap} {start id : String} {t : Transition}
    (ht : t ∈ transOf m id) : t.target ∈ nodeUniverse m start := by
  unfold transOf at ht
  cases hs : sceneGet m id with
  | none => rw [hs] at ht; exact absurd ht (List.not_mem_nil _)
  | some sc =>
    rw [hs] at ht
    unfold sceneGet at hs
    rcases Option.map_eq_some'.mp hs with ⟨pr, hfind, hpr⟩
    have hmem : pr ∈ m := List.mem_of_find?_eq_some hfind
    refine List.mem_cons_of_mem _ (List.mem_flatten.mpr ?_)
    refine ⟨(pr.2.transitions.getD []).map Transition.target, List.mem_map_of_mem _ hmem, ?_⟩
    apply List.mem_map_of_mem
    rw [hpr]
    exact ht

lemma expand_spec (curr : String) :
    ∀ (ts : List Transition) (qs visited : List String) (cf : CameFrom),
    ∃ (fresh : List String) (cf2 : CameFrom),
      ts.foldl (expandStep curr) (qs, visited, cf) = (qs ++ fresh, visited ++ fresh, cf2) ∧
      fresh.Nodup ∧
      (∀ x ∈ fresh, x ∉ visited) ∧
      (∀ x ∈ fresh, ∃ t ∈ ts, t.target = x) ∧
      (∀ t ∈ ts, t.target ∈ visited ++ fresh) ∧
      (∀ x ∈ fresh, ∃ t ∈ ts, t.target = x ∧ cfGet cf2 x = some (curr, t)) ∧
      (∀ v, v ∉ fresh → cfGet cf2 v = cfGet cf v) := by
  intro ts
  induction ts with
  | nil =>
    intro qs visited cf
    exact ⟨[], cf, by simp, by simp, by simp, by simp, by simp, by simp, fun v _ => rfl⟩
  | cons t ts ih =>
    intro qs visited cf
    rw [List.foldl_cons]
    by_cases hv : t.target ∈ visited
    · rw [show expandStep curr (qs, visited, cf) t = (qs, visited, cf) from by
        simp [expandStep, hv]]
      obtain ⟨fresh, cf2, heq, hnd, hnv, hsrc, hcov, hcf, hold⟩ := ih qs visited cf
      refine ⟨fresh, cf2, heq, hnd, hnv, ?_, ?_, ?_, hold⟩
      · intro x hx
        obtain ⟨t2, h2, h3⟩ := hsrc x hx
        exact ⟨t2, List.mem_cons_of_mem _ h2, h3⟩
      · intro t2 h2
        rcases List.mem_cons.mp h2 with rfl | h2
        · exact List.mem_append.mpr (Or.inl hv)
        · exact hcov t2 h2
      · intro x hx
        obtain ⟨t2, h2, h3, h4⟩ := hcf x hx
        exact ⟨t2, List.mem_cons_of_mem _ h2, h3, h4⟩
    · rw [show expandStep curr (qs, visited, cf) t =
          (qs ++ [t.target], visited ++ [t.target], (t.target, (curr, t)) :: cf) from by
        simp [expandStep, hv]]
      obtain ⟨fresh, cf2, heq, hnd, hnv, hsrc, hcov, hcf, hold⟩ :=
        ih (qs ++ [t.target]) (visited ++ [t.target]) ((t.target, (curr, t)) :: cf)
      have htnf : t.target ∉ fresh := fun hmem =>
        (hnv _ hmem) (List.mem_append.mpr (Or.inr (List.mem_singleton.mpr rfl)))
      refine ⟨t.target :: fresh, cf2, ?_, ?_, ?_, ?_, ?_, ?_, ?_⟩
      · rw [heq]
        simp
      · exact List.nodup_cons.mpr ⟨htnf, hnd⟩
      · intro x hx
        rcases List.mem_cons.mp hx with rfl | hx
        · exact hv
        · exact fun hxv => hnv x hx (List.mem_append.mpr (Or.inl hxv))
      · intro x hx
        rcases List.mem_cons.mp hx with rfl | hx
        · exact ⟨t, List.mem_cons_self _ _, rfl⟩
        · obtain ⟨t2, h2, h3⟩ := hsrc x hx
          exact ⟨t2, List.mem_cons_of_mem _ h2, h3⟩
      · intro t2 h2
        rcases List.mem_cons.mp h2 with rfl | h2
        · exact List.mem_append.mpr (Or.inr (List.mem_cons_self _ _))
        · have := hcov t2 h2
          simpa [List.append_assoc] using this
      · intro x hx
        rcases List.mem_cons.mp hx with rfl | hx
        · refine ⟨t, List.mem_cons_self _ _, rfl, ?_⟩
          rw [hold _ htnf]
          simp [cfGet]
        · obtain ⟨t2, h2, h3, h4⟩ := hcf x hx
          exact ⟨t2, List.mem_cons_of_mem _ h2, h3, h4⟩
      · intro v hv2
        have hvnf : v ∉ fresh := fun h => hv2 (List.mem_cons_of_mem _ h)
        have hvne : v ≠ t.target := fun h => hv2 (h ▸ List.mem_cons_self _ _)
        have hbe : (t.target == v) = false := beq_eq_false_iff_ne.mpr fun h => hvne h.symm
        rw [hold v hvnf]
        simp only [cfGet, List.find?_cons, hbe]

lemma minlen_desc_chain {m : SceneMap} {start : String} {visited : List String}
    {cameFrom : CameFrom}
    (cfGood : ∀ v ∈ visited, v ≠ start → ∃ u t n, cfGet cameFrom v = some (u, t) ∧
      t ∈ transOf m u ∧ t.target = v ∧ u ∈ visited ∧
      MinLen m start u n ∧ MinLen m start v (n + 1)) :
    ∀ n v, v ∈ visited → MinLen m start v n →
    ∃ l : List String, l.Nodup ∧ (∀ x ∈ l, x ∈ visited) ∧ l.length = n + 1 ∧
      (∀ x ∈ l, ∃ k ≤ n, MinLen m start x k) := by
  intro n
  induction n with
  | zero =>
    intro v hv hm
    refine ⟨[v], by simp, by simpa using hv, by simp, ?_⟩
    intro x hx
    rw [List.mem_singleton.mp hx]
    exact ⟨0, Nat.le_refl 0, hm⟩
  | succ n ih =>
    intro v hv hm
    by_cases hvs : v = start
    · subst hvs
      have := MinLen.unique hm (minLen_start m v)
      omega
    · obtain ⟨u, t, k, _, _, _, hu, hmk, hmk1⟩ := cfGood v hv hvs
      have hkn : k = n := by
        have := MinLen.unique hm hmk1
        omega
      subst hkn
      obtain ⟨l, hnd, hsub, hlen, hbound⟩ := ih u hu hmk
      have hvnl : v ∉ l := by
        intro hvl
        obtain ⟨k2, hk2, hmk2⟩ := hbound v hvl
        have := MinLen.unique hm hmk2
        omega
      refine ⟨v :: l, List.nodup_cons.mpr ⟨hvnl, hnd⟩, ?_, by simp [hlen], ?_⟩
      · intro x hx
        rcases List.mem_cons.mp hx with rfl | hx
        · exact hv
        · exact hsub x hx
      · intro x hx
        rcases List.mem_cons.mp hx with rfl | hx
        · exact ⟨k + 1, Nat.le_refl _, hm⟩
        · obtain ⟨k2, hk2, hmk2⟩ := hbound x hx
          exact ⟨k2, by omega, hmk2⟩

lemma minlen_lt_visited {m : SceneMap} {start : String} {visited : List String}
    {cameFrom : CameFrom}
    (cfGood : ∀ v ∈ visited, v ≠ start → ∃ u t n, cfGet cameFrom v = some (u, t) ∧
      t ∈ transOf m u ∧ t.target = v ∧ u ∈ visited ∧
      MinLen m start u n ∧ MinLen m start v (n + 1)) :
    ∀ n v, v ∈ visited → MinLen m start v n → n < visited.length := by
  intro n v hv hm
  obtain ⟨l, hnd, hsub, hlen, _⟩ := minlen_desc_chain cfGood n v hv hm
  have := (hnd.subperm hsub).length_le
  omega

lemma reconstruct_correct {m : SceneMap} {start : String} {visited : List String}
    {cameFrom : CameFrom}
    (cfGood : ∀ v ∈ visited, v ≠ start → ∃ u t n, cfGet cameFrom v = some (u, t) ∧
      t ∈ transOf m u ∧ t.target = v ∧ u ∈ visited ∧
      MinLen m start u n ∧ MinLen m start v (n + 1)) :
    ∀ (fuel n : Nat) (v : String), v ∈ visited → MinLen m start v n → n < fuel →
    ∀ acc, ∃ chain, Chains m start chain v ∧ chain.length = n ∧
      reconstruct cameFrom start fuel v acc = some (chain ++ acc.reverse) := by
  intro fuel
  induction fuel with
  | zero =>
    intro n v _ _ h
    omega
  | succ fuel ih =>
    intro n v hv hm hn acc
    by_cases hvs : v = start
    · subst hvs
      have h0 : n = 0 := MinLen.unique hm (minLen_start m v)
      subst h0
      refine ⟨[], Chains.nil v, rfl, ?_⟩
      simp [reconstruct]
    · obtain ⟨u, t, k, hcf, ht, htv, hu, hmk, hmk1⟩ := cfGood v hv hvs
      have hkn : n = k + 1 := MinLen.unique hm hmk1
      obtain ⟨chain, hc, hlen, hrec⟩ := ih k u hu hmk (by omega) (acc ++ [t])
      refine ⟨chain ++ [t], ?_, by simp [hlen, hkn], ?_⟩
      · have happ := Chains.append_one hc ht
        rwa [htv] at happ
      · have hstep : reconstruct cameFrom start (fuel + 1) v acc =
            reconstruct cameFrom start fuel u (acc ++ [t]) := by
          simp only [reconstruct]
          rw [if_neg (by simpa using hvs), hcf]
        rw [hstep, hrec]
        congr 1
        rw [List.reverse_append]
        simp

lemma fresh_minlen {m : SceneMap} {start target : String}
    {processed qs visited : List String} {curr : String} {cameFrom : CameFrom}
    (inv : BfsInv m start target processed (curr :: qs) visited cameFrom)
    {nc : Nat} (hnc : MinLen m start curr nc)
    {x : String} (hx : x ∉ visited)
    {t : Transition} (ht : t ∈ transOf m curr) (htx : t.target = x) :
    MinLen m start x (nc + 1) := by
  subst htx
  constructor
  · obtain ⟨⟨pc, hpc, hlen⟩, _⟩ := hnc
    exact ⟨pc ++ [t], Chains.append_one hpc ht, by simp [hlen]⟩
  · intro p hp
    by_contra hlt
    push_neg at hlt
    obtain ⟨u, t2, p1, huV, ht2, hnt2, hc1, hl1⟩ := chain_crosses hp inv.startMem hx
    obtain ⟨nu, hnu⟩ := inv.reach u huV
    have hnule : nu ≤ p1.length := hnu.2 p1 hc1
    have hnp : u ∉ processed := fun hup => hnt2 (inv.closure u hup t2 ht2)
    have huq : u ∈ curr :: qs := by
      have hm2 : u ∈ processed ++ curr :: qs := inv.vEq ▸ huV
      rcases List.mem_append.mp hm2 with h | h
      · exact absurd h hnp
      · exact h
    rcases List.mem_cons.mp huq with rfl | huqs
    · have := MinLen.unique hnu hnc
      omega
    · have hle := (List.pairwise_cons.mp inv.sorted).1 u huqs nc nu hnc hnu
      omega

lemma BfsInv.step {m : SceneMap} {start target : String}
    {processed qs visited : List String} {curr : String} {cameFrom : CameFrom}
    (inv : BfsInv m start target processed (curr :: qs) visited cameFrom)
    (htgt : curr ≠ target)
    {nc : Nat} (hnc : MinLen m start curr nc)
    {fresh : List String} {cf2 : CameFrom}
    (hnd : fresh.Nodup) (hnv : ∀ x ∈ fresh, x ∉ visited)
    (hsrc : ∀ x ∈ fresh, ∃ t ∈ transOf m curr, t.target = x)
    (hcov : ∀ t ∈ transOf m curr, t.target ∈ visited ++ fresh)
    (hcf : ∀ x ∈ fresh, ∃ t ∈ transOf m curr, t.target = x ∧ cfGet cf2 x = some (curr, t))
    (hold : ∀ v, v ∉ fresh → cfGet cf2 v = cfGet cameFrom v) :
    BfsInv m start target (processed ++ [curr]) (qs ++ fresh) (visited ++ fresh) cf2 := by
  have hcv : curr ∈ visited :=
    inv.vEq ▸ List.mem_append.mpr (Or.inr (List.mem_cons_self _ _))
  have freshLevel : ∀ x ∈ fresh, MinLen m start x (nc + 1) := by
    intro x hx
    obtain ⟨t, ht, htx⟩ := hsrc x hx
    exact fresh_minlen inv hnc (hnv x hx) ht htx
  refine ⟨?_, ?_, ?_, ?_, ?_, ?_, ?_, ?_, ?_, ?_⟩
  · rw [inv.vEq]
    simp
  · refine List.nodup_append.mpr ⟨inv.vNodup, hnd, ?_⟩
    intro a ha hafr
    exact hnv a hafr ha
  · intro v hv
    rcases List.mem_append.mp hv with hv | hv
    · exact inv.vUniverse v hv
    · obtain ⟨t, ht, htx⟩ := hsrc v hv
      rw [← htx]
      exact transOf_target_mem_universe ht
  · exact List.mem_append.mpr (Or.inl inv.startMem)
  · intro v hv
    rcases List.mem_append.mp hv with hv | hv
    · exact inv.reach v hv
    · exact ⟨nc + 1, freshLevel v hv⟩
  · refine List.pairwise_append.mpr ⟨(List.pairwise_cons.mp inv.sorted).2, ?_, ?_⟩
    · refine List.pairwise_of_forall_mem_list ?_
      intro x hx y hy nx ny hmx hmy
      have hxe := MinLen.unique hmx (freshLevel x hx)
      have hye := MinLen.unique hmy (freshLevel y hy)
      omega
    · intro x hx y hy nx ny hmx hmy
      have hxle : nx ≤ nc + 1 := inv.twoLevels curr x rfl (List.mem_cons_of_mem _ hx) nc nx hnc hmx
      have hye := MinLen.unique hmy (freshLevel y hy)
      omega
  · intro h x hh hx nh nx hmh hmx
    cases qs with
    | nil =>
      simp only [List.nil_append] at hh hx
      have hhf : h ∈ fresh := List.mem_of_mem_head? (Option.mem_def.mpr hh)
      have hhe := MinLen.unique hmh (freshLevel h hhf)
      have hxe := MinLen.unique hmx (freshLevel x hx)
      omega
    | cons q0 qs2 =>
      simp only [List.cons_append, List.head?_cons, Option.some.injEq] at hh
      subst hh
      obtain ⟨n0, hn0⟩ := inv.reach q0
        (inv.vEq ▸ List.mem_append.mpr (Or.inr (List.mem_cons_of_mem _ (List.mem_cons_self _ _))))
      have hn0e : n0 = nh := MinLen.unique hn0 hmh
      subst hn0e
      have hcle : nc ≤ n0 :=
        (List.pairwise_cons.mp inv.sorted).1 q0 (List.mem_cons_self _ _) nc n0 hnc hn0
      rcases List.mem_append.mp hx with hx | hx
      · have hxle : nx ≤ nc + 1 := inv.twoLevels curr x rfl
          (List.mem_cons_of_mem _ hx) nc nx hnc hmx
        omega
      · have hxe := MinLen.unique hmx (freshLevel x hx)
        omega
  · intro u hu t ht
    rcases List.mem_append.mp hu with hu | hu
    · exact List.mem_append.mpr (Or.inl (inv.closure u hu t ht))
    · exact hcov t ((List.mem_singleton.mp hu) ▸ ht)
  · intro v hv hvs
    rcases List.mem_append.mp hv with hv | hv
    · obtain ⟨u, t, n, hcfv, ht, htv, huv, hmu, hmv⟩ := inv.cfGood v hv hvs
      have hvnf : v ∉ fresh := fun h => hnv v h hv
      exact ⟨u, t, n, (hold v hvnf).symm ▸ hcfv, ht, htv,
        List.mem_append.mpr (Or.inl huv), hmu, hmv⟩
    · obtain ⟨t, ht, htv, hcfv⟩ := hcf v hv
      exact ⟨curr, t, nc, hcfv, ht, htv, List.mem_append.mpr (Or.inl hcv), hnc,
        freshLevel v hv⟩
  · intro hmem
    rcases List.mem_append.mp hmem with h | h
    · exact inv.targetNew h
    · exact htgt (List.mem_singleton.mp h).symm

lemma bfsLoop_correct (m : SceneMap) (start target : String) :
    ∀ (fuel : Nat) (processed queue visited : List String) (cameFrom : CameFrom),
    BfsInv m start target processed queue visited cameFrom →
    (nodeUniverse m start).length + 1 ≤ fuel + processed.length →
    ∃ res finalVisited,
      bfsLoop m start target fuel queue visited cameFrom = some (res, finalVisited) ∧
      finalVisited.Nodup ∧
      ((res = none ∧ ∀ p, ¬ Chains m start p target) ∨
        (∃ path, res = some path ∧ Chains m start path target ∧
          ∀ q, Chains m start q target → path.length ≤ q.length)) := by
  intro fuel
  induction fuel with
  | zero =>
    intro processed queue visited cameFrom inv hfuel
    exfalso
    have hpn : processed.Nodup := (List.nodup_append.mp (inv.vEq ▸ inv.vNodup)).1
    have hps : processed ⊆ nodeUniverse m start := by
      intro x hx
      exact inv.vUniverse x (inv.vEq ▸ List.mem_append.mpr (Or.inl hx))
    have := (hpn.subperm hps).length_le
    omega
  | succ fuel ih =>
    intro processed queue visited cameFrom inv hfuel
    cases queue with
    | nil =>
      refine ⟨none, visited, rfl, inv.vNodup, Or.inl ⟨rfl, ?_⟩⟩
      intro p hp
      have hclosed : ∀ u ∈ visited, ∀ t ∈ transOf m u, t.target ∈ visited := by
        intro u hu t ht
        have hup : u ∈ processed := by
          have := inv.vEq ▸ hu
          simpa using this
        exact inv.closure u hup t ht
      have htv : target ∈ visited := chain_stays hclosed hp inv.startMem
      have : target ∈ processed := by
        have := inv.vEq ▸ htv
        simpa using this
      exact inv.targetNew this
    | cons curr qs =>
      have hcv : curr ∈ visited :=
        inv.vEq ▸ List.mem_append.mpr (Or.inr (List.mem_cons_self _ _))
      obtain ⟨nc, hnc⟩ := inv.reach curr hcv
      by_cases htgt : curr = target
      · subst htgt
        have hlt : nc < visited.length + 1 := by
          have := minlen_lt_visited inv.cfGood nc curr hcv hnc
          omega
        obtain ⟨chain, hc, hlen, hrec⟩ :=
          reconstruct_correct inv.cfGood (visited.length + 1) nc curr hcv hnc hlt []
        rw [List.reverse_nil, List.append_nil] at hrec
        refine ⟨some chain, visited, ?_, inv.vNodup, Or.inr ⟨chain, rfl, hc, ?_⟩⟩
        · simp only [bfsLoop, beq_self_eq_true, if_true, hrec]
        · intro q hq2
          have := hnc.2 q hq2
          omega
      · obtain ⟨fresh, cf2, heq, hnd, hnv, hsrc, hcov, hcf, hold⟩ :=
          expand_spec curr (transOf m curr) qs visited cameFrom
        have newInv := inv.step htgt hnc hnd hnv hsrc hcov hcf hold
        obtain ⟨res, fv, hrun, hndv, hcase⟩ :=
          ih (processed ++ [curr]) (qs ++ fresh) (visited ++ fresh) cf2 newInv
            (by simp only [List.length_append, List.length_singleton]; omega)
        refine ⟨res, fv, ?_, hndv, hcase⟩
        have hbeq : (curr == target) = false := beq_eq_false_iff_ne.mpr htgt
        simp only [bfsLoop, hbeq, Bool.false_eq_true, if_false, heq]
        exact hrun

/-- Claim C2: `find_path` returns the empty path when `start = target`;
returns `some` exactly on reachable targets, and the returned path chains
`start` to `target` through declared transitions with transition count equal
to the BFS shortest-path distance (it is minimal among all chaining paths);
and each scene is enqueued at most once (the enqueue log has no
duplicates). -/
theorem C2_find_path_bfs (m : SceneMap) (s t : String) :
    (find_path m s s = some []) ∧
    ((∃ p, Chains m s p t) ↔ ∃ path, find_path m s t = some path) ∧
    (∀ path, find_path m s t = some path →
      Chains m s path t ∧ ∀ q, Chains m s q t → path.length ≤ q.length) ∧
    (∀ log, find_path_enqueues m s t = some log → log.Nodup) := by
  have hself : find_path m s s = some [] := by simp [find_path]
  by_cases hst : s = t
  · subst hst
    refine ⟨hself, ?_, ?_, ?_⟩
    · exact ⟨fun _ => ⟨[], hself⟩, fun _ => ⟨[], Chains.nil s⟩⟩
    · intro path hp
      rw [hself] at hp
      cases hp
      exact ⟨Chains.nil s, fun _ _ => Nat.zero_le _⟩
    · intro log hlog
      simp only [find_path_enqueues, beq_self_eq_true, if_true, Option.some.injEq] at hlog
      rw [← hlog]
      exact List.nodup_nil
  · have inv0 : BfsInv m s t [] [s] [s] [] := by
      refine ⟨rfl, by simp, ?_, by simp, ?_, by simp, ?_, by simp, ?_, by simp⟩
      · intro v hv
        rw [List.mem_singleton.mp hv]
        exact List.mem_cons_self _ _
      · intro v hv
        rw [List.mem_singleton.mp hv]
        exact ⟨0, minLen_start m s⟩
      · intro h x hh hx nh nx hmh hmx
        simp only [List.head?_cons, Option.some.injEq] at hh
        rw [List.mem_singleton.mp hx] at hmx
        rw [← hh] at hmh
        have h1 := MinLen.unique hmh (minLen_start m s)
        have h2 := MinLen.unique hmx (minLen_start m s)
        omega
      · intro v hv hvs
        exact absurd (List.mem_singleton.mp hv) hvs
    obtain ⟨res, fv, hrun, hnd, hcase⟩ :=
      bfsLoop_correct m s t ((nodeUniverse m s).length + 1) [] [s] [s] [] inv0 (by simp)
    have hfr : find_path_run m s t = some (res, fv) := hrun
    have hbeq : (s == t) = false := beq_eq_false_iff_ne.mpr hst
    refine ⟨hself, ?_, ?_, ?_⟩
    · constructor
      · rintro ⟨p, hp⟩
        rcases hcase with ⟨_, hunreach⟩ | ⟨path, hres, _, _⟩
        · exact absurd hp (hunreach p)
        · refine ⟨path, ?_⟩
          simp only [find_path, hbeq, Bool.false_eq_true, if_false, hfr, hres]
      · rintro ⟨path, hp⟩
        rcases hcase with ⟨hres, _⟩ | ⟨path2, _, hc, _⟩
        · simp only [find_path, hbeq, Bool.false_eq_true, if_false, hfr, hres] at hp
          cases hp
        · exact ⟨path2, hc⟩
    · intro path hp
      simp only [find_path, hbeq, Bool.false_eq_true, if_false, hfr] at hp
      rcases hcase with ⟨hres, _⟩ | ⟨path2, hres, hc, hmin⟩
      · rw [hres] at hp
        cases hp
      · rw [hres] at hp
        cases hp
        exact ⟨hc, hmin⟩
    · intro log hlog
      simp only [find_path_enqueues, hbeq, Bool.false_eq_true, if_false, hfr,
        Option.map_some', Option.some.injEq] at hlog
      rw [← hlog]
      exact hnd

/-- Concrete instantiation of C2: on the graph A → B the returned path is the
single declared transition, and it is minimal. -/
theorem C2_find_path_bfs_witness :
    Chains [("A", ⟨"A", "", none, some [⟨"B", (5, 6), 100⟩]⟩),
            ("B", ⟨"B", "", none, none⟩)] "A" [⟨"B", (5, 6), 100⟩] "B" ∧
    ∀ q, Chains [("A", ⟨"A", "", none, some [⟨"B", (5, 6), 100⟩]⟩),
            ("B", ⟨"B", "", none, none⟩)] "A" q "B" →
      ([(⟨"B", (5, 6), 100⟩ : Transition)] : List Transition).length ≤ q.length :=
  (C2_find_path_bfs [("A", ⟨"A", "", none, some [⟨"B", (5, 6), 100⟩]⟩),
            ("B", ⟨"B", "", none, none⟩)] "A" "B").2.2.1
    [⟨"B", (5, 6), 100⟩] (by decide)

/-! ## Lemmas for the camera controller (C7) -/

lemma scroll_close (dir : Char) (p : ℚ) (hp : 10 < p) :
    |(scroll_camera_by_pixels dir p 100).1 - p| < 20 := by
  have hnot : ¬ p < 10 := by linarith
  simp only [scroll_camera_by_pixels, hnot, if_false]
  have hq3 : p / move_speed * 1000 = p * 10 / 3 := by
    unfold move_speed
    ring
  have hqpos : (0 : ℚ) < p * 10 / 3 := by linarith
  set raw : Nat := ratToU64 (p / move_speed * 1000) with hraw
  have hfl0 : 0 ≤ Int.floor (p * 10 / 3) := Int.floor_nonneg.mpr (le_of_lt hqpos)
  have hrawz : (raw : ℤ) = Int.floor (p * 10 / 3) := by
    rw [hraw, ratToU64, hq3]
    exact Int.toNat_of_nonneg hfl0
  have hrle : (raw : ℚ) ≤ p * 10 / 3 := by
    have hb := Int.floor_le (p * 10 / 3)
    rw [← hrawz] at hb
    exact_mod_cast hb
  have hrgt : p * 10 / 3 < (raw : ℚ) + 1 := by
    have hb := Int.lt_floor_add_one (p * 10 / 3)
    rw [← hrawz] at hb
    exact_mod_cast hb
  have hdm := Nat.div_add_mod (raw + 100 / 2) 100
  have hml : (raw + 100 / 2) % 100 < 100 := Nat.mod_lt _ (by norm_num)
  set units : Nat := (raw + 100 / 2) / 100 with hunits
  have hub : 100 * units ≤ raw + 50 ∧ raw + 50 < 100 * units + 100 := by omega
  rcases Nat.eq_zero_or_pos units with hu0 | hupos
  · have hr49 : raw + 50 < 100 := by omega
    have hp15 : p < 15 := by
      have : (raw : ℚ) ≤ 49 := by exact_mod_cast (by omega : raw ≤ 49)
      linarith
    rw [hu0]
    unfold move_speed
    have hmove : ((max 0 1 * 100 : ℕ) : ℚ) / 1000 * 300 = 30 := by norm_num
    rw [hmove]
    rw [abs_lt]
    constructor <;> linarith
  · have hmaxu : max units 1 = units := Nat.max_eq_left hupos
    rw [hmaxu]
    unfold move_speed
    have hmove : ((units * 100 : ℕ) : ℚ) / 1000 * 300 = 30 * units := by
      push_cast
      ring
    rw [hmove]
    have hc1 : (100 : ℚ) * units ≤ (raw : ℚ) + 50 := by exact_mod_cast hub.1
    have hc2 : (raw : ℚ) + 50 < 100 * units + 100 := by exact_mod_cast hub.2
    rw [abs_lt]
    constructor <;> linarith

lemma smart_move_noop (cfg : TDConfig) (meta : MapMeta) (st : TDState) (y : ℚ)
    (hdelta : |idealCamY cfg meta y - st.camera_offset_y| < 90) :
    smart_move_camera cfg meta st y = (false, st, []) := by
  simp only [smart_move_camera]
  rw [if_pos hdelta]

lemma smart_move_spec (cfg : TDConfig) (meta : MapMeta) (st : TDState) (y : ℚ)
    (hdelta : ¬ |idealCamY cfg meta y - st.camera_offset_y| < 90) :
    (smart_move_camera cfg meta st y).1 = true ∧
    |idealCamY cfg meta y - (smart_move_camera cfg meta st y).2.1.camera_offset_y| < 90 := by
  have hideal0 : 0 ≤ idealCamY cfg meta y := by
    unfold idealCamY
    apply le_min
    · exact le_max_right _ _
    · exact le_max_right _ _
  have hidealmax : idealCamY cfg meta y ≤ max (meta.bottom - cfg.screen_height) 0 :=
    min_le_right _ _
  simp only [smart_move_camera]
  rw [if_neg hdelta]
  by_cases hmid : idealCamY cfg meta y ≤ max (meta.bottom - cfg.screen_height) 0 / 2
  · rw [if_pos hmid]
    by_cases hten : 10 < idealCamY cfg meta y
    · rw [if_pos hten]
      simp only [align_camera_to_edge, if_true]
      refine ⟨by trivial, ?_⟩
      have hclose := scroll_close 's' (idealCamY cfg meta y) hten
      rw [abs_lt] at hclose ⊢
      simp only [zero_add]
      constructor <;> linarith [hclose.1, hclose.2]
    · rw [if_neg hten]
      simp only [align_camera_to_edge, if_true]
      refine ⟨by trivial, ?_⟩
      push_neg at hten
      rw [abs_lt]
      constructor <;> simp <;> linarith
  · rw [if_neg hmid]
    by_cases hten : 10 < max (meta.bottom - cfg.screen_height) 0 - idealCamY cfg meta y
    · rw [if_pos hten]
      simp only [align_camera_to_edge, Bool.false_eq_true, if_false]
      refine ⟨by trivial, ?_⟩
      have hclose := scroll_close 'w'
        (max (meta.bottom - cfg.screen_height) 0 - idealCamY cfg meta y) hten
      rw [abs_lt] at hclose ⊢
      constructor <;> linarith [hclose.1, hclose.2]
    · rw [if_neg hten]
      simp only [align_camera_to_edge, Bool.false_eq_true, if_false]
      refine ⟨by trivial, ?_⟩
      push_neg at hten
      rw [abs_lt]
      constructor <;> linarith

/-- Claim C7: `smart_move_camera` is idempotent against a fixed target: if a
call physically moves (returns `true`), an immediate second call with the
same target returns `false`, performs no input events, and leaves the state
unchanged; equivalently, after the move the offset estimate is within the
90-px threshold of the ideal offset. -/
theorem C7_smart_move_camera_idempotent (cfg : TDConfig) (meta : MapMeta)
    (st : TDState) (y : ℚ)
    (h : (smart_move_camera cfg meta st y).1 = true) :
    (smart_move_camera cfg meta (smart_move_camera cfg meta st y).2.1 y).1 = false ∧
    (smart_move_camera cfg meta (smart_move_camera cfg meta st y).2.1 y).2.1 =
      (smart_move_camera cfg meta st y).2.1 ∧
    (smart_move_camera cfg meta (smart_move_camera cfg meta st y).2.1 y).2.2 = [] ∧
    |idealCamY cfg meta y - ((smart_move_camera cfg meta st y).2.1).camera_offset_y| < 90 := by
  by_cases hdelta : |idealCamY cfg meta y - st.camera_offset_y| < 90
  · rw [smart_move_noop cfg meta st y hdelta] at h
    cases h
  · have hspec := smart_move_spec cfg meta st y hdelta
    have hnoop := smart_move_noop cfg meta (smart_move_camera cfg meta st y).2.1 y hspec.2
    rw [hnoop]
    exact ⟨rfl, rfl, rfl, hspec.2⟩

/-- Concrete instantiation of C7: from offset 500 with ideal offset 0, the
first call moves (edge-align to top) and the second call is a no-op. -/
theorem C7_smart_move_camera_idempotent_witness :
    (smart_move_camera TDConfig.default ⟨10, 0, 0, 2000, []⟩ ⟨∅, ∅, ∅, 500⟩ 540).1 = true ∧
    (smart_move_camera TDConfig.default ⟨10, 0, 0, 2000, []⟩
      (smart_move_camera TDConfig.default ⟨10, 0, 0, 2000, []⟩ ⟨∅, ∅, ∅, 500⟩ 540).2.1
      540).1 = false := by
  have hideal : idealCamY TDConfig.default ⟨10, 0, 0, 2000, []⟩ 540 = 0 := by
    unfold idealCamY TDConfig.default
    norm_num
  have hdelta : ¬ |idealCamY TDConfig.default ⟨10, 0, 0, 2000, []⟩ 540 -
      (⟨∅, ∅, ∅, 500⟩ : TDState).camera_offset_y| < 90 := by
    rw [hideal]
    norm_num
  have h1 := (smart_move_spec TDConfig.default ⟨10, 0, 0, 2000, []⟩ ⟨∅, ∅, ∅, 500⟩ 540 hdelta).1
  exact ⟨h1, (C7_smart_move_camera_idempotent TDConfig.default ⟨10, 0, 0, 2000, []⟩
    ⟨∅, ∅, ∅, 500⟩ 540 h1).1⟩

/-! ## Lemmas for the build key-refresh logic (C8) -/

lemma perform_build_branch (cfg : TDConfig) (loadout : List String) (st : TDState)
    (lk : Option Char) (moved : Bool) (mx my : ℚ) (name : String) (uid : Nat) :
    (perform_build_action cfg loadout st lk moved mx my name uid).2.2.1 =
      (if moved = true ∨ lk = none then KeyRefreshKind.threeStep
       else if some (get_trap_key loadout name) ≠ lk then KeyRefreshKind.single
       else KeyRefreshKind.skip) ∧
    (perform_build_action cfg loadout st lk moved mx my name uid).2.1 =
      (if moved = true ∨ lk = none then some (get_trap_key loadout name)
       else if some (get_trap_key loadout name) ≠ lk then some (get_trap_key loadout name)
       else lk) := by
  by_cases hc : moved = true ∨ lk = none
  · have hc2 : moved ∨ lk = none := by
      rcases hc with h | h
      · exact Or.inl h
      · exact Or.inr h
    simp only [perform_build_action, if_pos hc2, if_pos hc]
    exact ⟨by trivial, by trivial⟩
  · have hc2 : ¬ (moved ∨ lk = none) := by
      intro h
      rcases h with h | h
      · exact hc (Or.inl h)
      · exact hc (Or.inr h)
    by_cases hk : some (get_trap_key loadout name) ≠ lk
    · simp only [perform_build_action, if_neg hc2, if_pos hk, if_neg hc]
      exact ⟨by trivial, by trivial⟩
    · simp only [perform_build_action, if_neg hc2, if_neg hk, if_neg hc]
      exact ⟨by trivial, by trivial⟩

lemma batch_fold_inv (cfg : TDConfig) (meta : MapMeta) (loadout : List String)
    (force : Bool) :
    ∀ (tasks : List ScheduledTask) (acc : BatchAcc),
    (∀ r ∈ acc.reports, buildBranchOk r) →
    List.Chain' (fun a b => b.lastKeyBefore = some a.key) acc.reports →
    acc.last_build_key = acc.reports.getLast?.map BuildReport.key →
    (∀ r0, acc.reports.head? = some r0 → r0.lastKeyBefore = none) →
    (∀ r ∈ (tasks.foldl (batchStep cfg meta loadout force) acc).reports, buildBranchOk r) ∧
    List.Chain' (fun a b => b.lastKeyBefore = some a.key)
      (tasks.foldl (batchStep cfg meta loadout force) acc).reports ∧
    (tasks.foldl (batchStep cfg meta loadout force) acc).last_build_key =
      (tasks.foldl (batchStep cfg meta loadout force) acc).reports.getLast?.map
        BuildReport.key ∧
    (∀ r0, (tasks.foldl (batchStep cfg meta loadout force) acc).reports.head? = some r0 →
      r0.lastKeyBefore = none) := by
  intro tasks
  induction tasks with
  | nil =>
    intro acc h1 h2 h3 h4
    exact ⟨h1, h2, h3, h4⟩
  | cons t ts ih =>
    intro acc h1 h2 h3 h4
    rw [List.foldl_cons]
    rcases hact : t.action with d | b | u
    · exact ih _ (by simp [batchStep, hact] ; exact h1)
        (by simp [batchStep, hact]; exact h2)
        (by simp [batchStep, hact]; exact h3)
        (by simp [batchStep, hact]; exact h4)
    · -- place
      set mv := smart_move_camera cfg meta acc.st t.map_y with hmv
      set moved := (mv.1 ∨ (acc.is_first_task ∧ force) : Bool) with hmoved
      set key := get_trap_key loadout b.name with hkey
      set pb := perform_build_action cfg loadout mv.2.1 acc.last_build_key moved
        t.map_x t.map_y b.name b.uid with hpb
      have hstep : batchStep cfg meta loadout force acc t =
          { st := pb.1, last_build_key := pb.2.1,
            is_first_task := if acc.is_first_task ∧ force then false else acc.is_first_task,
            events := acc.events ++ mv.2.2 ++ pb.2.2.2,
            reports := acc.reports ++
              [⟨b.uid, mv.1, moved, acc.last_build_key, key, pb.2.2.1⟩] } := by
        simp only [batchStep, hact]
      rw [hstep]
      have hbr := perform_build_branch cfg loadout mv.2.1 acc.last_build_key moved
        t.map_x t.map_y b.name b.uid
      set rnew : BuildReport := ⟨b.uid, mv.1, moved, acc.last_build_key, key, pb.2.2.1⟩
        with hrnew
      have hok : buildBranchOk rnew := by
        rw [hrnew]
        unfold buildBranchOk
        simp only
        rw [hbr.1]
        by_cases hc : moved = true ∨ acc.last_build_key = none
        · rw [if_pos hc]
          refine ⟨by simp [hc], ?_, ?_⟩
          · constructor
            · intro h
              cases h
            · rintro ⟨hm, hn, _⟩
              rcases hc with h | h
              · rw [h] at hm
                cases hm
              · exact absurd h hn
          · constructor
            · intro h
              cases h
            · rintro ⟨hm, hsame⟩
              rcases hc with h | h
              · rw [h] at hm
                cases hm
              · rw [h] at hsame
                cases hsame
        · push_neg at hc
          have hmf : moved = false := by
            cases hmoved2 : moved
            · rfl
            · exact absurd hmoved2 hc.1
          by_cases hk : some key ≠ acc.last_build_key
          · rw [if_neg (by rintro (h | h); exacts [hc.1 h, hc.2 h]), if_pos hk]
            refine ⟨?_, ?_, ?_⟩
            · constructor
              · intro h
                cases h
              · rintro (h | h)
                · rw [hmf] at h
                  cases h
                · exact absurd h hc.2
            · simp [hmf, hc.2, hk]
            · constructor
              · intro h
                cases h
              · rintro ⟨_, hsame⟩
                exact absurd hsame hk
          · push_neg at hk
            rw [if_neg (by rintro (h | h); exacts [hc.1 h, hc.2 h]), if_neg (by simpa using hk)]
            refine ⟨?_, ?_, ?_⟩
            · constructor
              · intro h
                cases h
              · rintro (h | h)
                · rw [hmf] at h
                  cases h
                · exact absurd h hc.2
            · constructor
              · intro h
                cases h
              · rintro ⟨_, _, hne⟩
                exact absurd hk hne
            · simp [hmf, hk]
      refine ih _ ?_ ?_ ?_ ?_
      · intro r hr
        rcases List.mem_append.mp hr with hr | hr
        · exact h1 r hr
        · rw [List.mem_singleton.mp hr]
          exact hok
      · rw [List.chain'_append]
        refine ⟨h2, List.chain'_singleton _, ?_⟩
        intro x hx y hy
        simp only [List.head?_cons, Option.mem_def, Option.some.injEq] at hy
        rw [← hy, hrnew]
        simp only
        rw [h3]
        rw [Option.mem_def] at hx
        rw [hx]
        rfl
      · simp only [List.getLast?_concat, Option.map_some']
        rw [hbr.2]
        by_cases hc : moved = true ∨ acc.last_build_key = none
        · rw [if_pos hc]
        · by_cases hk : some key ≠ acc.last_build_key
          · rw [if_neg hc, if_pos hk]
          · push_neg at hk
            rw [if_neg hc, if_neg (by simpa using hk)]
            rw [← hk]
      · intro r0 hr0
        cases hrep : acc.reports with
        | nil =>
          rw [hrep] at hr0
          simp only [List.nil_append, List.head?_cons, Option.some.injEq] at hr0
          rw [← hr0, hrnew]
          simp only
          rw [h3, hrep]
          rfl
        | cons a l =>
          rw [hrep] at hr0
          simp only [List.cons_append, List.head?_cons, Option.some.injEq] at hr0
          apply h4
          rw [hrep, ← hr0]
          rfl
    · -- demolish (pattern order: match emits demolish first; adjust below)
      exact ih _ (by simp [batchStep, hact]; exact h1)
        (by simp [batchStep, hact]; exact h2)
        (by simp [batchStep, hact]; exact h3)
        (by simp [batchStep, hact]; exact h4)

/-- Claim C8 (amended): for every build action in a task batch, the
three-step refresh sequence is performed iff the camera just moved for this
action (`smart_move_camera` returned true, or the first action of a
freshly-aligned batch) OR no tower has been placed yet in this batch (the
last-placed key is unset — the source's `last_key.is_none()` condition,
which fires for the first build of every batch regardless of alignment);
otherwise a single key press iff the tool differs from the last placed one,
and no key press for the same tool. The last-placed key seen by each action
is the key of the previous build in the batch (`Chain'`), and the first
build of a batch always sees an unset key. -/
theorem C8_build_key_refresh (cfg : TDConfig) (meta : MapMeta) (loadout : List String)
    (st : TDState) (tasks : List ScheduledTask) (force : Bool) :
    (∀ r ∈ (process_task_batch cfg meta loadout st tasks force).2.2, buildBranchOk r) ∧
    List.Chain' (fun a b => b.lastKeyBefore = some a.key)
      (process_task_batch cfg meta loadout st tasks force).2.2 ∧
    (∀ r0, (process_task_batch cfg meta loadout st tasks force).2.2.head? = some r0 →
      r0.lastKeyBefore = none) := by
  have h := batch_fold_inv cfg meta loadout force tasks ⟨st, none, true, [], []⟩
    (by intro r hr; cases hr) (by simp) rfl (by intro r0 h0; cases h0)
  exact ⟨h.1, h.2.1, h.2.2.2⟩

lemma c8_eval :
    (process_task_batch TDConfig.default ⟨10, 0, 0, 1080, []⟩ ["spike"] ⟨∅, ∅, ∅, 0⟩
      [⟨TaskAction.place ⟨7, "spike", 0, 0, 1, 1, 1, false⟩, 540, 300, 1⟩] false).2.2 =
    [⟨7, false, false, none, get_trap_key ["spike"] "spike", KeyRefreshKind.threeStep⟩] := by
  have hno : smart_move_camera TDConfig.default ⟨10, 0, 0, 1080, []⟩ ⟨∅, ∅, ∅, 0⟩ 540 =
      (false, ⟨∅, ∅, ∅, 0⟩, []) := by
    apply smart_move_noop
    unfold idealCamY TDConfig.default
    norm_num
  simp only [process_task_batch, List.foldl_cons, List.foldl_nil, batchStep, hno]
  simp [perform_build_action]

/-- Claim C8 counterexample: in a batch that is not freshly aligned
(`force_initial_refresh = false`) whose first build action needs no camera
move, the code still performs the three-step refresh (because no tower was
placed yet, `last_key` is `None`), while the claim as stated predicts no
refresh when the camera did not just move; at this concrete input the
claim's iff fails. -/
theorem C8_refresh_counterexample :
    ¬ buildRefreshClaim
      (process_task_batch TDConfig.default ⟨10, 0, 0, 1080, []⟩ ["spike"] ⟨∅, ∅, ∅, 0⟩
        [⟨TaskAction.place ⟨7, "spike", 0, 0, 1, 1, 1, false⟩, 540, 300, 1⟩] false).2.2 := by
  rw [c8_eval]
  intro hcl
  have h := (hcl ⟨7, false, false, none, get_trap_key ["spike"] "spike",
    KeyRefreshKind.threeStep⟩ (List.mem_singleton_self _)).1.mp rfl
  simp at h

/-- Concrete instantiation of C8 (amended): the first build of a batch sees
an unset last-placed key. -/
theorem C8_build_key_refresh_witness :
    (⟨7, false, false, none, get_trap_key ["spike"] "spike",
      KeyRefreshKind.threeStep⟩ : BuildReport).lastKeyBefore = none := by
  apply (C8_build_key_refresh TDConfig.default ⟨10, 0, 0, 1080, []⟩ ["spike"] ⟨∅, ∅, ∅, 0⟩
    [⟨TaskAction.place ⟨7, "spike", 0, 0, 1, 1, 1, false⟩, 540, 300, 1⟩] false).2.2
  rw [c8_eval]
  rfl

/-! ## Lemmas for the dispatch traces (C5, C6) -/

lemma extract_scroll (dir : Char) (p : ℚ) (r : Nat) :
    placedOf (scroll_camera_by_pixels dir p r).2 = [] ∧
    demolishedOf (scroll_camera_by_pixels dir p r).2 = [] ∧
    upgradedOf (scroll_camera_by_pixels dir p r).2 = [] ∧
    dispatchLabels (scroll_camera_by_pixels dir p r).2 = [] := by
  unfold scroll_camera_by_pixels
  split_ifs <;> simp [placedOf, demolishedOf, upgradedOf, dispatchLabels]

lemma extract_smart_move (cfg : TDConfig) (meta : MapMeta) (st : TDState) (y : ℚ) :
    placedOf (smart_move_camera cfg meta st y).2.2 = [] ∧
    demolishedOf (smart_move_camera cfg meta st y).2.2 = [] ∧
    upgradedOf (smart_move_camera cfg meta st y).2.2 = [] ∧
    dispatchLabels (smart_move_camera cfg meta st y).2.2 = [] := by
  obtain ⟨s1, s2, s3, s4⟩ := extract_scroll 's' (idealCamY cfg meta y) 100
  obtain ⟨w1, w2, w3, w4⟩ := extract_scroll 'w'
    (max (meta.bottom - cfg.screen_height) 0 - idealCamY cfg meta y) 100
  simp only [placedOf, demolishedOf, upgradedOf, dispatchLabels] at s1 s2 s3 s4 w1 w2 w3 w4 ⊢
  unfold smart_move_camera align_camera_to_edge
  by_cases h1 : |idealCamY cfg meta y - st.camera_offset_y| < 90 <;>
    by_cases h2 : idealCamY cfg meta y ≤ (max (meta.bottom - cfg.screen_height) 0) / 2 <;>
      by_cases h3 : (10 : ℚ) < idealCamY cfg meta y <;>
        by_cases h4 : (10 : ℚ) < max (meta.bottom - cfg.screen_height) 0 - idealCamY cfg meta y <;>
          simp [h1, h2, h3, h4, List.filterMap_append, List.filter_append,
            s1, s2, s3, s4, w1, w2, w3, w4]

lemma sets_smart_move (cfg : TDConfig) (meta : MapMeta) (st : TDState) (y : ℚ) :
    (smart_move_camera cfg meta st y).2.1.placed_uids = st.placed_uids ∧
    (smart_move_camera cfg meta st y).2.1.completed_demolish_uids = st.completed_demolish_uids ∧
    (smart_move_camera cfg meta st y).2.1.completed_upgrade_keys = st.completed_upgrade_keys := by
  unfold smart_move_camera align_camera_to_edge
  by_cases h1 : |idealCamY cfg meta y - st.camera_offset_y| < 90 <;>
    by_cases h2 : idealCamY cfg meta y ≤ (max (meta.bottom - cfg.screen_height) 0) / 2 <;>
      by_cases h3 : (10 : ℚ) < idealCamY cfg meta y <;>
        by_cases h4 : (10 : ℚ) < max (meta.bottom - cfg.screen_height) 0 - idealCamY cfg meta y <;>
          simp [h1, h2, h3, h4]

lemma extract_demolish (cfg : TDConfig) (st : TDState) (mx my : ℚ) (uid : Nat) :
    placedOf (perform_demolish_action cfg st mx my uid).2 = [] ∧
    demolishedOf (perform_demolish_action cfg st mx my uid).2 = [uid] ∧
    upgradedOf (perform_demolish_action cfg st mx my uid).2 = [] ∧
    dispatchLabels (perform_demolish_action cfg st mx my uid).2 = [TDEvent.actDemolish uid] := by
  simp [perform_demolish_action, placedOf, demolishedOf, upgradedOf, dispatchLabels]

lemma extract_build (cfg : TDConfig) (loadout : List String) (st : TDState)
    (lk : Option Char) (moved : Bool) (mx my : ℚ) (name : String) (uid : Nat) :
    placedOf (perform_build_action cfg loadout st lk moved mx my name uid).2.2.2 = [uid] ∧
    demolishedOf (perform_build_action cfg loadout st lk moved mx my name uid).2.2.2 = [] ∧
    upgradedOf (perform_build_action cfg loadout st lk moved mx my name uid).2.2.2 = [] ∧
    dispatchLabels (perform_build_action cfg loadout st lk moved mx my name uid).2.2.2 =
      [TDEvent.actPlace uid] := by
  unfold perform_build_action
  by_cases hm : moved = true ∨ lk = none <;>
    by_cases hk : some (get_trap_key loadout name) = lk <;>
      simp [hm, hk, placedOf, demolishedOf, upgradedOf, dispatchLabels]

lemma extract_upgrade (loadout : List String) (st : TDState) (u : UpgradeEvent) :
    placedOf (execute_single_upgrade loadout st u).2 = [] ∧
    demolishedOf (execute_single_upgrade loadout st u).2 = [] ∧
    upgradedOf (execute_single_upgrade loadout st u).2 =
      [fmtKey u.building_name u.wave_num u.is_late] ∧
    dispatchLabels (execute_single_upgrade loadout st u).2 =
      [TDEvent.actUpgrade (fmtKey u.building_name u.wave_num u.is_late)] := by
  simp [execute_single_upgrade, placedOf, demolishedOf, upgradedOf, dispatchLabels]

lemma sets_build (cfg : TDConfig) (loadout : List String) (st : TDState)
    (lk : Option Char) (moved : Bool) (mx my : ℚ) (name : String) (uid : Nat) :
    (perform_build_action cfg loadout st lk moved mx my name uid).1.placed_uids =
      insert uid st.placed_uids ∧
    (perform_build_action cfg loadout st lk moved mx my name uid).1.completed_demolish_uids =
      st.completed_demolish_uids ∧
    (perform_build_action cfg loadout st lk moved mx my name uid).1.completed_upgrade_keys =
      st.completed_upgrade_keys := by
  unfold perform_build_action
  by_cases hm : moved = true ∨ lk = none <;>
    by_cases hk : some (get_trap_key loadout name) = lk <;>
      simp [hm, hk]

lemma batch_extract (cfg : TDConfig) (meta : MapMeta) (loadout : List String)
    (force : Bool) :
    ∀ (tasks : List ScheduledTask) (acc : BatchAcc),
    placedOf (tasks.foldl (batchStep cfg meta loadout force) acc).events =
      placedOf acc.events ++ placeUidsT tasks ∧
    demolishedOf (tasks.foldl (batchStep cfg meta loadout force) acc).events =
      demolishedOf acc.events ++ demUidsT tasks ∧
    upgradedOf (tasks.foldl (batchStep cfg meta loadout force) acc).events =
      upgradedOf acc.events ++ upgKeysT tasks ∧
    dispatchLabels (tasks.foldl (batchStep cfg meta loadout force) acc).events =
      dispatchLabels acc.events ++ tasks.map taskLabel ∧
    (tasks.foldl (batchStep cfg meta loadout force) acc).st.placed_uids =
      acc.st.placed_uids ∪ (placeUidsT tasks).toFinset ∧
    (tasks.foldl (batchStep cfg meta loadout force) acc).st.completed_demolish_uids =
      acc.st.completed_demolish_uids ∪ (demUidsT tasks).toFinset ∧
    (tasks.foldl (batchStep cfg meta loadout force) acc).st.completed_upgrade_keys =
      acc.st.completed_upgrade_keys ∪ (upgKeysT tasks).toFinset := by
  intro tasks
  induction tasks with
  | nil =>
    intro acc
    simp [placeUidsT, demUidsT, upgKeysT]
  | cons t ts ih =>
    intro acc
    rw [List.foldl_cons]
    obtain ⟨ihp, ihd, ihu, ihl, ihsp, ihsd, ihsu⟩ := ih (batchStep cfg meta loadout force acc t)
    rcases hact : t.action with d | b | u
    · -- demolish
      have hstep : (batchStep cfg meta loadout force acc t).events =
          acc.events ++ (smart_move_camera cfg meta acc.st t.map_y).2.2 ++
            (perform_demolish_action cfg
              (smart_move_camera cfg meta acc.st t.map_y).2.1 t.map_x t.map_y d.uid).2 ∧
          (batchStep cfg meta loadout force acc t).st =
            (perform_demolish_action cfg
              (smart_move_camera cfg meta acc.st t.map_y).2.1 t.map_x t.map_y d.uid).1 := by
        simp [batchStep, hact]
      obtain ⟨he, hs⟩ := hstep
      obtain ⟨e1, e2, e3, e4⟩ := extract_smart_move cfg meta acc.st t.map_y
      obtain ⟨d1, d2, d3, d4⟩ := extract_demolish cfg
        (smart_move_camera cfg meta acc.st t.map_y).2.1 t.map_x t.map_y d.uid
      obtain ⟨m1, m2, m3⟩ := sets_smart_move cfg meta acc.st t.map_y
      have hps : (perform_demolish_action cfg
          (smart_move_camera cfg meta acc.st t.map_y).2.1 t.map_x t.map_y d.uid).1.placed_uids =
          acc.st.placed_uids ∧
          (perform_demolish_action cfg (smart_move_camera cfg meta acc.st t.map_y).2.1
            t.map_x t.map_y d.uid).1.completed_demolish_uids =
            insert d.uid acc.st.completed_demolish_uids ∧
          (perform_demolish_action cfg (smart_move_camera cfg meta acc.st t.map_y).2.1
            t.map_x t.map_y d.uid).1.completed_upgrade_keys =
            acc.st.completed_upgrade_keys := by
        unfold perform_demolish_action
        simp [m1, m2, m3]
      refine ⟨?_, ?_, ?_, ?_, ?_, ?_, ?_⟩
      · rw [ihp, he]
        simp only [placedOf, List.filterMap_append] at e1 d1 ⊢
        rw [e1, d1]
        simp [placeUidsT, taskPlaceUid, hact]
      · rw [ihd, he]
        simp only [demolishedOf, List.filterMap_append] at e2 d2 ⊢
        rw [e2, d2]
        simp [demUidsT, taskDemUid, hact]
      · rw [ihu, he]
        simp only [upgradedOf, List.filterMap_append] at e3 d3 ⊢
        rw [e3, d3]
        simp [upgKeysT, taskUpgKey, hact]
      · rw [ihl, he]
        simp only [dispatchLabels, List.filter_append] at e4 d4 ⊢
        rw [e4, d4]
        simp [taskLabel, hact]
      · rw [ihsp, hs, hps.1]
        simp [placeUidsT, taskPlaceUid, hact]
      · rw [ihsd, hs, hps.2.1]
        simp [demUidsT, taskDemUid, hact, List.toFinset_cons, Finset.insert_union,
          Finset.union_insert]
      · rw [ihsu, hs, hps.2.2]
        simp [upgKeysT, taskUpgKey, hact]
    · -- place
      have hstep : (batchStep cfg meta loadout force acc t).events =
          acc.events ++ (smart_move_camera cfg meta acc.st t.map_y).2.2 ++
            (perform_build_action cfg loadout (smart_move_camera cfg meta acc.st t.map_y).2.1
              acc.last_build_key
              (decide ((smart_move_camera cfg meta acc.st t.map_y).1 = true ∨
                (acc.is_first_task = true ∧ force = true)))
              t.map_x t.map_y b.name b.uid).2.2.2 ∧
          (batchStep cfg meta loadout force acc t).st =
            (perform_build_action cfg loadout (smart_move_camera cfg meta acc.st t.map_y).2.1
              acc.last_build_key
              (decide ((smart_move_camera cfg meta acc.st t.map_y).1 = true ∨
                (acc.is_first_task = true ∧ force = true)))
              t.map_x t.map_y b.name b.uid).1 := by
        simp [batchStep, hact]
      obtain ⟨he, hs⟩ := hstep
      obtain ⟨e1, e2, e3, e4⟩ := extract_smart_move cfg meta acc.st t.map_y
      obtain ⟨b1, b2, b3, b4⟩ := extract_build cfg loadout
        (smart_move_camera cfg meta acc.st t.map_y).2.1 acc.last_build_key
        (decide ((smart_move_camera cfg meta acc.st t.map_y).1 = true ∨
          (acc.is_first_task = true ∧ force = true))) t.map_x t.map_y b.name b.uid
      obtain ⟨m1, m2, m3⟩ := sets_smart_move cfg meta acc.st t.map_y
      obtain ⟨s1, s2, s3⟩ := sets_build cfg loadout
        (smart_move_camera cfg meta acc.st t.map_y).2.1 acc.last_build_key
        (decide ((smart_move_camera cfg meta acc.st t.map_y).1 = true ∨
          (acc.is_first_task = true ∧ force = true))) t.map_x t.map_y b.name b.uid
      refine ⟨?_, ?_, ?_, ?_, ?_, ?_, ?_⟩
      · rw [ihp, he]
        simp only [placedOf, List.filterMap_append] at e1 b1 ⊢
        rw [e1, b1]
        simp [placeUidsT, taskPlaceUid, hact]
      · rw [ihd, he]
        simp only [demolishedOf, List.filterMap_append] at e2 b2 ⊢
        rw [e2, b2]
        simp [demUidsT, taskDemUid, hact]
      · rw [ihu, he]
        simp only [upgradedOf, List.filterMap_append] at e3 b3 ⊢
        rw [e3, b3]
        simp [upgKeysT, taskUpgKey, hact]
      · rw [ihl, he]
        simp only [dispatchLabels, List.filter_append] at e4 b4 ⊢
        rw [e4, b4]
        simp [taskLabel, hact]
      · rw [ihsp, hs, s1, m1]
        simp [placeUidsT, taskPlaceUid, hact, List.toFinset_cons, Finset.insert_union,
          Finset.union_insert]
      · rw [ihsd, hs, s2, m2]
        simp [demUidsT, taskDemUid, hact]
      · rw [ihsu, hs, s3, m3]
        simp [upgKeysT, taskUpgKey, hact]
    · -- upgrade
      have hstep : (batchStep cfg meta loadout force acc t).events =
          acc.events ++ (execute_single_upgrade loadout acc.st u).2 ∧
          (batchStep cfg meta loadout force acc t).st =
            (execute_single_upgrade loadout acc.st u).1 := by
        simp [batchStep, hact]
      obtain ⟨he, hs⟩ := hstep
      obtain ⟨u1, u2, u3, u4⟩ := extract_upgrade loadout acc.st u
      have hus : (execute_single_upgrade loadout acc.st u).1.placed_uids =
          acc.st.placed_uids ∧
          (execute_single_upgrade loadout acc.st u).1.completed_demolish_uids =
            acc.st.completed_demolish_uids ∧
          (execute_single_upgrade loadout acc.st u).1.completed_upgrade_keys =
            insert (fmtKey u.building_name u.wave_num u.is_late)
              acc.st.completed_upgrade_keys := by
        simp [execute_single_upgrade]
      refine ⟨?_, ?_, ?_, ?_, ?_, ?_, ?_⟩
      · rw [ihp, he]
        simp only [placedOf, List.filterMap_append] at u1 ⊢
        rw [u1]
        simp [placeUidsT, taskPlaceUid, hact]
      · rw [ihd, he]
        simp only [demolishedOf, List.filterMap_append] at u2 ⊢
        rw [u2]
        simp [demUidsT, taskDemUid, hact]
      · rw [ihu, he]
        simp only [upgradedOf, List.filterMap_append] at u3 ⊢
        rw [u3]
        simp [upgKeysT, taskUpgKey, hact]
      · rw [ihl, he]
        simp only [dispatchLabels, List.filter_append] at u4 ⊢
        rw [u4]
        simp [taskLabel, hact]
      · rw [ihsp, hs, hus.1]
        simp [placeUidsT, taskPlaceUid, hact]
      · rw [ihsd, hs, hus.2.1]
        simp [demUidsT, taskDemUid, hact]
      · rw [ihsu, hs, hus.2.2]
        simp [upgKeysT, taskUpgKey, hact, List.toFinset_cons, Finset.insert_union,
          Finset.union_insert]

lemma extract_align (cfg : TDConfig) (meta : MapMeta) (st : TDState) (top : Bool) :
    placedOf (align_camera_to_edge cfg meta st top).2 = [] ∧
    demolishedOf (align_camera_to_edge cfg meta st top).2 = [] ∧
    upgradedOf (align_camera_to_edge cfg meta st top).2 = [] ∧
    dispatchLabels (align_camera_to_edge cfg meta st top).2 = [] ∧
    (align_camera_to_edge cfg meta st top).1.placed_uids = st.placed_uids ∧
    (align_camera_to_edge cfg meta st top).1.completed_demolish_uids =
      st.completed_demolish_uids ∧
    (align_camera_to_edge cfg meta st top).1.completed_upgrade_keys =
      st.completed_upgrade_keys := by
  simp [align_camera_to_edge, placedOf, demolishedOf, upgradedOf, dispatchLabels]

lemma batch_run (cfg : TDConfig) (meta : MapMeta) (loadout : List String)
    (st : TDState) (tasks : List ScheduledTask) (force : Bool) :
    placedOf (process_task_batch cfg meta loadout st tasks force).2.1 = placeUidsT tasks ∧
    demolishedOf (process_task_batch cfg meta loadout st tasks force).2.1 = demUidsT tasks ∧
    upgradedOf (process_task_batch cfg meta loadout st tasks force).2.1 = upgKeysT tasks ∧
    dispatchLabels (process_task_batch cfg meta loadout st tasks force).2.1 =
      tasks.map taskLabel ∧
    (process_task_batch cfg meta loadout st tasks force).1.placed_uids =
      st.placed_uids ∪ (placeUidsT tasks).toFinset ∧
    (process_task_batch cfg meta loadout st tasks force).1.completed_demolish_uids =
      st.completed_demolish_uids ∪ (demUidsT tasks).toFinset ∧
    (process_task_batch cfg meta loadout st tasks force).1.completed_upgrade_keys =
      st.completed_upgrade_keys ∪ (upgKeysT tasks).toFinset := by
  obtain ⟨h1, h2, h3, h4, h5, h6, h7⟩ :=
    batch_extract cfg meta loadout force tasks ⟨st, none, true, [], []⟩
  refine ⟨?_, ?_, ?_, ?_, ?_, ?_, ?_⟩ <;>
    simp only [process_task_batch] <;>
    first
      | (rw [h1]; simp [placedOf])
      | (rw [h2]; simp [demolishedOf])
      | (rw [h3]; simp [upgradedOf])
      | (rw [h4]; simp [dispatchLabels])
      | rw [h5]
      | rw [h6]
      | rw [h7]

lemma region_half_run (cfg : TDConfig) (meta : MapMeta) (loadout : List String)
    (st : TDState) (raw sorted : List ScheduledTask) (top : Bool)
    (hp : sorted.Perm raw) :
    placedOf (dispatch_region_half cfg meta loadout st raw sorted top).2.1 =
      placeUidsT sorted ∧
    demolishedOf (dispatch_region_half cfg meta loadout st raw sorted top).2.1 =
      demUidsT sorted ∧
    upgradedOf (dispatch_region_half cfg meta loadout st raw sorted top).2.1 =
      upgKeysT sorted ∧
    dispatchLabels (dispatch_region_half cfg meta loadout st raw sorted top).2.1 =
      sorted.map taskLabel ∧
    (dispatch_region_half cfg meta loadout st raw sorted top).1.placed_uids =
      st.placed_uids ∪ (placeUidsT sorted).toFinset ∧
    (dispatch_region_half cfg meta loadout st raw sorted top).1.completed_demolish_uids =
      st.completed_demolish_uids ∪ (demUidsT sorted).toFinset ∧
    (dispatch_region_half cfg meta loadout st raw sorted top).1.completed_upgrade_keys =
      st.completed_upgrade_keys ∪ (upgKeysT sorted).toFinset := by
  unfold dispatch_region_half
  by_cases he : raw.isEmpty = true
  · have hs : sorted = [] := by
      rw [List.isEmpty_iff] at he
      rw [he] at hp
      exact List.perm_nil.mp hp
    rw [if_pos he, hs]
    simp [placedOf, demolishedOf, upgradedOf, dispatchLabels, placeUidsT, demUidsT, upgKeysT]
  · rw [if_neg he]
    by_cases hv : are_tasks_in_current_view cfg st.camera_offset_y sorted = true
    · rw [if_pos hv]
      exact batch_run cfg meta loadout st sorted false
    · rw [if_neg hv]
      obtain ⟨a1, a2, a3, a4, a5, a6, a7⟩ := extract_align cfg meta st top
      obtain ⟨b1, b2, b3, b4, b5, b6, b7⟩ := batch_run cfg meta loadout
        (align_camera_to_edge cfg meta st top).1 sorted true
      refine ⟨?_, ?_, ?_, ?_, ?_, ?_, ?_⟩
      · simp only [placedOf, List.filterMap_append] at a1 b1 ⊢
        rw [a1, b1]
        simp
      · simp only [demolishedOf, List.filterMap_append] at a2 b2 ⊢
        rw [a2, b2]
        simp
      · simp only [upgradedOf, List.filterMap_append] at a3 b3 ⊢
        rw [a3, b3]
        simp
      · simp only [dispatchLabels, List.filter_append] at a4 b4 ⊢
        rw [a4, b4]
        simp
      · rw [b5, a5]
      · rw [b6, a6]
      · rw [b7, a7]

lemma dispatch_run (cfg : TDConfig) (meta : MapMeta) (loadout : List String)
    (st : TDState) (tasks : List ScheduledTask) :
    placedOf (dispatch_tasks_by_region cfg meta loadout st tasks).2.1 =
      placeUidsT (upperTasks cfg meta tasks) ++ placeUidsT (lowerTasks cfg meta tasks) ∧
    demolishedOf (dispatch_tasks_by_region cfg meta loadout st tasks).2.1 =
      demUidsT (upperTasks cfg meta tasks) ++ demUidsT (lowerTasks cfg meta tasks) ∧
    upgradedOf (dispatch_tasks_by_region cfg meta loadout st tasks).2.1 =
      upgKeysT (upperTasks cfg meta tasks) ++ upgKeysT (lowerTasks cfg meta tasks) ∧
    dispatchLabels (dispatch_tasks_by_region cfg meta loadout st tasks).2.1 =
      (upperTasks cfg meta tasks).map taskLabel ++
        (lowerTasks cfg meta tasks).map taskLabel ∧
    (dispatch_tasks_by_region cfg meta loadout st tasks).1.placed_uids =
      st.placed_uids ∪ (placeUidsT (upperTasks cfg meta tasks)).toFinset ∪
        (placeUidsT (lowerTasks cfg meta tasks)).toFinset ∧
    (dispatch_tasks_by_region cfg meta loadout st tasks).1.completed_demolish_uids =
      st.completed_demolish_uids ∪ (demUidsT (upperTasks cfg meta tasks)).toFinset ∪
        (demUidsT (lowerTasks cfg meta tasks)).toFinset ∧
    (dispatch_tasks_by_region cfg meta loadout st tasks).1.completed_upgrade_keys =
      st.completed_upgrade_keys ∪ (upgKeysT (upperTasks cfg meta tasks)).toFinset ∪
        (upgKeysT (lowerTasks cfg meta tasks)).toFinset := by
  unfold dispatch_tasks_by_region
  rw [List.partition_eq_filter_filter]
  obtain ⟨r11, r12, r13, r14, r15, r16, r17⟩ := region_half_run cfg meta loadout st
    (tasks.filter (regionPred cfg meta))
    ((tasks.filter (regionPred cfg meta)).mergeSort taskUpLe) true
    (List.mergeSort_perm _ _)
  obtain ⟨r21, r22, r23, r24, r25, r26, r27⟩ := region_half_run cfg meta loadout
    (dispatch_region_half cfg meta loadout st (tasks.filter (regionPred cfg meta))
      ((tasks.filter (regionPred cfg meta)).mergeSort taskUpLe) true).1
    (tasks.filter (not ∘ regionPred cfg meta))
    ((tasks.filter (not ∘ regionPred cfg meta)).mergeSort taskDownLe) false
    (List.mergeSort_perm _ _)
  refine ⟨?_, ?_, ?_, ?_, ?_, ?_, ?_⟩
  · simp only [placedOf, List.filterMap_append] at r11 r21 ⊢
    rw [r11, r21]
    rfl
  · simp only [demolishedOf, List.filterMap_append] at r12 r22 ⊢
    rw [r12, r22]
    rfl
  · simp only [upgradedOf, List.filterMap_append] at r13 r23 ⊢
    rw [r13, r23]
    rfl
  · simp only [dispatchLabels, List.filter_append] at r14 r24 ⊢
    rw [r14, r24]
    rfl
  · rw [r25, r15]
    rfl
  · rw [r26, r16]
    rfl
  · rw [r27, r17]
    rfl

lemma upper_lower_perm (cfg : TDConfig) (meta : MapMeta) (tasks : List ScheduledTask) :
    (upperTasks cfg meta tasks ++ lowerTasks cfg meta tasks).Perm tasks := by
  unfold upperTasks lowerTasks
  refine ((List.mergeSort_perm _ _).append (List.mergeSort_perm _ _)).trans ?_
  simpa [Function.comp] using List.filter_append_perm (regionPred cfg meta) tasks

/-! ## Lemmas about the task-collection loops (C5, C6) -/

lemma filterMap_comp_none {α β γ : Type} (f : α → Option β) (g : β → Option γ)
    (l : List α) (h : ∀ a b, f a = some b → g b = none) :
    (l.filterMap f).filterMap g = [] := by
  induction l with
  | nil => rfl
  | cons a t ih =>
    rw [List.filterMap_cons]
    cases hfa : f a with
    | none => exact ih
    | some b => rw [List.filterMap_cons, h a b hfa]; exact ih

lemma filterMap_comp_sub_map {α β γ : Type} (f : α → Option β) (g : β → Option γ)
    (h : α → γ) (l : List α)
    (hfg : ∀ a b c, f a = some b → g b = some c → c = h a) :
    ((l.filterMap f).filterMap g).Sublist (l.map h) := by
  induction l with
  | nil => simp
  | cons a t ih =>
    rw [List.filterMap_cons, List.map_cons]
    cases hfa : f a with
    | none => exact List.Sublist.cons _ ih
    | some b =>
      rw [List.filterMap_cons]
      cases hgb : g b with
      | none => exact List.Sublist.cons _ ih
      | some c => rw [hfg a b c hfa hgb]; exact List.Sublist.cons₂ _ ih

lemma mem_collectDemolish (ctx : TDCtx) (st : TDState) (w : Int) (late : Bool)
    (t : ScheduledTask) (ht : t ∈ collectDemolishTasks ctx st w late) :
    ∃ d : DemolishEvent, t.action = TaskAction.demolish d ∧ t.priority = 0 ∧
      d.wave_num = w ∧ d.is_late = late ∧ d.uid ∉ st.completed_demolish_uids := by
  rw [collectDemolishTasks, List.mem_filterMap] at ht
  obtain ⟨d, _, hd⟩ := ht
  by_cases hc : d.wave_num = w ∧ d.is_late = late ∧ d.uid ∉ st.completed_demolish_uids
  · rw [if_pos hc] at hd
    cases hp : get_absolute_map_pixel ctx.map_meta d.grid_x d.grid_y d.width d.height with
    | none => rw [hp] at hd; cases hd
    | some p =>
      rw [hp] at hd
      simp only [Option.map_some', Option.some.injEq] at hd
      exact ⟨d, by rw [← hd], by rw [← hd], hc.1, hc.2.1, hc.2.2⟩
  · rw [if_neg hc] at hd; cases hd

lemma mem_collectBuild (ctx : TDCtx) (st : TDState) (w : Int) (late : Bool)
    (t : ScheduledTask) (ht : t ∈ collectBuildTasks ctx st w late) :
    ∃ b : BuildingExport, t.action = TaskAction.place b ∧ t.priority = 1 ∧
      b.wave_num = w ∧ b.is_late = late ∧ b.uid ∉ st.placed_uids := by
  rw [collectBuildTasks, List.mem_filterMap] at ht
  obtain ⟨b, _, hb⟩ := ht
  by_cases hc : b.wave_num = w ∧ b.is_late = late ∧ b.uid ∉ st.placed_uids
  · rw [if_pos hc] at hb
    cases hp : get_absolute_map_pixel ctx.map_meta b.grid_x b.grid_y b.width b.height with
    | none => rw [hp] at hb; cases hb
    | some p =>
      rw [hp] at hb
      simp only [Option.map_some', Option.some.injEq] at hb
      exact ⟨b, by rw [← hb], by rw [← hb], hc.1, hc.2.1, hc.2.2⟩
  · rw [if_neg hc] at hb; cases hb

lemma mem_collectUpgrade (ctx : TDCtx) (st : TDState) (w : Int) (late : Bool)
    (t : ScheduledTask) (ht : t ∈ collectUpgradeTasks ctx st w late) :
    ∃ u : UpgradeEvent, t.action = TaskAction.upgrade u ∧ t.priority = 2 ∧
      u.wave_num = w ∧ u.is_late = late ∧
      fmtKey u.building_name u.wave_num u.is_late ∉ st.completed_upgrade_keys := by
  rw [collectUpgradeTasks, List.mem_filterMap] at ht
  obtain ⟨u, _, hu⟩ := ht
  by_cases hc : u.wave_num = w ∧ u.is_late = late ∧
      fmtKey u.building_name u.wave_num u.is_late ∉ st.completed_upgrade_keys
  · rw [if_pos hc] at hu
    simp only [Option.some.injEq] at hu
    exact ⟨u, by rw [← hu], by rw [← hu], hc.1, hc.2.1, hc.2.2⟩
  · rw [if_neg hc] at hu; cases hu

lemma collectDemolish_only_demolish (ctx : TDCtx) (st : TDState) (w : Int) (late : Bool) :
    placeUidsT (collectDemolishTasks ctx st w late) = [] ∧
    upgKeysT (collectDemolishTasks ctx st w late) = [] := by
  constructor <;>
  · apply List.eq_nil_iff_forall_not_mem.mpr
    intro x hx
    simp only [placeUidsT, upgKeysT, List.mem_filterMap] at hx
    obtain ⟨t, ht, hxt⟩ := hx
    obtain ⟨d, hd, -⟩ := mem_collectDemolish ctx st w late t ht
    simp [taskPlaceUid, taskUpgKey, hd] at hxt

lemma collectBuild_only_place (ctx : TDCtx) (st : TDState) (w : Int) (late : Bool) :
    demUidsT (collectBuildTasks ctx st w late) = [] ∧
    upgKeysT (collectBuildTasks ctx st w late) = [] := by
  constructor <;>
  · apply List.eq_nil_iff_forall_not_mem.mpr
    intro x hx
    simp only [demUidsT, upgKeysT, List.mem_filterMap] at hx
    obtain ⟨t, ht, hxt⟩ := hx
    obtain ⟨b, hb, -⟩ := mem_collectBuild ctx st w late t ht
    simp [taskDemUid, taskUpgKey, hb] at hxt

lemma collectUpgrade_only_upgrade (ctx : TDCtx) (st : TDState) (w : Int) (late : Bool) :
    placeUidsT (collectUpgradeTasks ctx st w late) = [] ∧
    demUidsT (collectUpgradeTasks ctx st w late) = [] := by
  constructor <;>
  · apply List.eq_nil_iff_forall_not_mem.mpr
    intro x hx
    simp only [placeUidsT, demUidsT, List.mem_filterMap] at hx
    obtain ⟨t, ht, hxt⟩ := hx
    obtain ⟨u, hu, -⟩ := mem_collectUpgrade ctx st w late t ht
    simp [taskPlaceUid, taskDemUid, hu] at hxt

lemma collectDemolish_uids (ctx : TDCtx) (st : TDState) (w : Int) (late : Bool) :
    (demUidsT (collectDemolishTasks ctx st w late)).Sublist
      (ctx.strategy_demolishes.map DemolishEvent.uid) ∧
    ∀ u ∈ demUidsT (collectDemolishTasks ctx st w late),
      u ∉ st.completed_demolish_uids := by
  constructor
  · unfold demUidsT collectDemolishTasks
    apply filterMap_comp_sub_map
    intro d t u hf hg
    by_cases hc : d.wave_num = w ∧ d.is_late = late ∧ d.uid ∉ st.completed_demolish_uids
    · rw [if_pos hc] at hf
      cases hp : get_absolute_map_pixel ctx.map_meta d.grid_x d.grid_y d.width d.height with
      | none => rw [hp] at hf; cases hf
      | some p =>
        rw [hp] at hf
        simp only [Option.map_some', Option.some.injEq] at hf
        rw [← hf] at hg
        simp only [taskDemUid, Option.some.injEq] at hg
        exact hg.symm
    · rw [if_neg hc] at hf; cases hf
  · intro u hu
    simp only [demUidsT, List.mem_filterMap] at hu
    obtain ⟨t, ht, hut⟩ := hu
    obtain ⟨d, hd, -, -, -, hnotin⟩ := mem_collectDemolish ctx st w late t ht
    simp only [taskDemUid, hd, Option.some.injEq] at hut
    rw [← hut]
    exact hnotin

lemma collectBuild_uids (ctx : TDCtx) (st : TDState) (w : Int) (late : Bool) :
    (placeUidsT (collectBuildTasks ctx st w late)).Sublist
      (ctx.strategy_buildings.map BuildingExport.uid) ∧
    ∀ u ∈ placeUidsT (collectBuildTasks ctx st w late), u ∉ st.placed_uids := by
  constructor
  · unfold placeUidsT collectBuildTasks
    apply filterMap_comp_sub_map
    intro b t u hf hg
    by_cases hc : b.wave_num = w ∧ b.is_late = late ∧ b.uid ∉ st.placed_uids
    · rw [if_pos hc] at hf
      cases hp : get_absolute_map_pixel ctx.map_meta b.grid_x b.grid_y b.width b.height with
      | none => rw [hp] at hf; cases hf
      | some p =>
        rw [hp] at hf
        simp only [Option.map_some', Option.some.injEq] at hf
        rw [← hf] at hg
        simp only [taskPlaceUid, Option.some.injEq] at hg
        exact hg.symm
    · rw [if_neg hc] at hf; cases hf
  · intro u hu
    simp only [placeUidsT, List.mem_filterMap] at hu
    obtain ⟨t, ht, hut⟩ := hu
    obtain ⟨b, hb, -, -, -, hnotin⟩ := mem_collectBuild ctx st w late t ht
    simp only [taskPlaceUid, hb, Option.some.injEq] at hut
    rw [← hut]
    exact hnotin

lemma collectUpgrade_keys (ctx : TDCtx) (st : TDState) (w : Int) (late : Bool) :
    (upgKeysT (collectUpgradeTasks ctx st w late)).Sublist
      (ctx.strategy_upgrades.map fun u => fmtKey u.building_name u.wave_num u.is_late) ∧
    ∀ k ∈ upgKeysT (collectUpgradeTasks ctx st w late),
      k ∉ st.completed_upgrade_keys := by
  constructor
  · unfold upgKeysT collectUpgradeTasks
    apply filterMap_comp_sub_map
    intro u t k hf hg
    by_cases hc : u.wave_num = w ∧ u.is_late = late ∧
        fmtKey u.building_name u.wave_num u.is_late ∉ st.completed_upgrade_keys
    · rw [if_pos hc] at hf
      simp only [Option.some.injEq] at hf
      rw [← hf] at hg
      simp only [taskUpgKey, Option.some.injEq] at hg
      exact hg.symm
    · rw [if_neg hc] at hf; cases hf
  · intro k hk
    simp only [upgKeysT, List.mem_filterMap] at hk
    obtain ⟨t, ht, hkt⟩ := hk
    obtain ⟨u, hu, -, -, -, hnotin⟩ := mem_collectUpgrade ctx st w late t ht
    simp only [taskUpgKey, hu, Option.some.injEq] at hkt
    rw [← hkt]
    exact hnotin

/-! ## The phase lemma: one `execute_wave_phase` call (C5, C6) -/

lemma dispatch_nil (cfg : TDConfig) (meta : MapMeta) (loadout : List String)
    (st : TDState) :
    dispatch_tasks_by_region cfg meta loadout st [] = (st, [], []) := by
  simp [dispatch_tasks_by_region, dispatch_region_half, List.partition_eq_filter_filter]

lemma placedOf_append (a b : List TDEvent) :
    placedOf (a ++ b) = placedOf a ++ placedOf b := List.filterMap_append _ _ _

lemma demolishedOf_append (a b : List TDEvent) :
    demolishedOf (a ++ b) = demolishedOf a ++ demolishedOf b := List.filterMap_append _ _ _

lemma upgradedOf_append (a b : List TDEvent) :
    upgradedOf (a ++ b) = upgradedOf a ++ upgradedOf b := List.filterMap_append _ _ _

lemma dispatchLabels_append (a b : List TDEvent) :
    dispatchLabels (a ++ b) = dispatchLabels a ++ dispatchLabels b := List.filter_append _ _

lemma dispatch_uid_perm (cfg : TDConfig) (meta : MapMeta) (loadout : List String)
    (st : TDState) (tasks : List ScheduledTask) :
    (placedOf (dispatch_tasks_by_region cfg meta loadout st tasks).2.1).Perm
      (placeUidsT tasks) ∧
    (demolishedOf (dispatch_tasks_by_region cfg meta loadout st tasks).2.1).Perm
      (demUidsT tasks) ∧
    (upgradedOf (dispatch_tasks_by_region cfg meta loadout st tasks).2.1).Perm
      (upgKeysT tasks) ∧
    (dispatch_tasks_by_region cfg meta loadout st tasks).1.placed_uids =
      st.placed_uids ∪ (placeUidsT tasks).toFinset ∧
    (dispatch_tasks_by_region cfg meta loadout st tasks).1.completed_demolish_uids =
      st.completed_demolish_uids ∪ (demUidsT tasks).toFinset ∧
    (dispatch_tasks_by_region cfg meta loadout st tasks).1.completed_upgrade_keys =
      st.completed_upgrade_keys ∪ (upgKeysT tasks).toFinset := by
  obtain ⟨d1, d2, d3, d4, d5, d6, d7⟩ := dispatch_run cfg meta loadout st tasks
  have hperm := upper_lower_perm cfg meta tasks
  refine ⟨?_, ?_, ?_, ?_, ?_, ?_⟩
  · rw [d1]
    simp only [placeUidsT, ← List.filterMap_append]
    exact List.Perm.filterMap _ hperm
  · rw [d2]
    simp only [demUidsT, ← List.filterMap_append]
    exact List.Perm.filterMap _ hperm
  · rw [d3]
    simp only [upgKeysT, ← List.filterMap_append]
    exact List.Perm.filterMap _ hperm
  · rw [d5, Finset.union_assoc, ← List.toFinset_append]
    simp only [placeUidsT, ← List.filterMap_append]
    rw [List.toFinset_eq_of_perm _ _ (List.Perm.filterMap _ hperm)]
  · rw [d6, Finset.union_assoc, ← List.toFinset_append]
    simp only [demUidsT, ← List.filterMap_append]
    rw [List.toFinset_eq_of_perm _ _ (List.Perm.filterMap _ hperm)]
  · rw [d7, Finset.union_assoc, ← List.toFinset_append]
    simp only [upgKeysT, ← List.filterMap_append]
    rw [List.toFinset_eq_of_perm _ _ (List.Perm.filterMap _ hperm)]

lemma phase_run (ctx : TDCtx) (st : TDState) (w : Int) (late : Bool)
    (st2 : TDState) (ev : List TDEvent) (reps : List BuildReport)
    (h : execute_wave_phase ctx st w late = some (st2, ev, reps)) :
    (placedOf ev).Perm (placeUidsT (collectBuildTasks ctx st w late)) ∧
    (demolishedOf ev).Perm (demUidsT (collectDemolishTasks ctx st w late)) ∧
    (upgradedOf ev).Perm (upgKeysT (collectUpgradeTasks ctx st w late)) ∧
    st2.placed_uids =
      st.placed_uids ∪ (placeUidsT (collectBuildTasks ctx st w late)).toFinset ∧
    st2.completed_demolish_uids =
      st.completed_demolish_uids ∪ (demUidsT (collectDemolishTasks ctx st w late)).toFinset ∧
    st2.completed_upgrade_keys =
      st.completed_upgrade_keys ∪ (upgKeysT (collectUpgradeTasks ctx st w late)).toFinset := by
  simp only [execute_wave_phase] at h
  by_cases hboth : (collectDemolishTasks ctx st w late).isEmpty = true ∧
      (collectBuildTasks ctx st w late ++ collectUpgradeTasks ctx st w late).isEmpty = true
  · rw [if_pos hboth] at h
    simp only [Option.some.injEq, Prod.mk.injEq] at h
    obtain ⟨h1, h2, -⟩ := h
    obtain ⟨hb, hu⟩ := List.append_eq_nil.mp (List.isEmpty_iff.mp hboth.2)
    have hd := List.isEmpty_iff.mp hboth.1
    rw [← h1, ← h2, hb, hu, hd]
    simp [placedOf, demolishedOf, upgradedOf, placeUidsT, demUidsT, upgKeysT]
  · rw [if_neg hboth] at h
    cases hm : ctx.map_meta with
    | none => rw [hm] at h; cases h
    | some meta =>
      rw [hm] at h
      simp only [] at h
      have hr1 : (if (collectDemolishTasks ctx st w late).isEmpty = true then
            (st, ([] : List TDEvent), ([] : List BuildReport))
          else dispatch_tasks_by_region ctx.config meta ctx.active_loadout st
            (collectDemolishTasks ctx st w late)) =
          dispatch_tasks_by_region ctx.config meta ctx.active_loadout st
            (collectDemolishTasks ctx st w late) := by
        by_cases hd : (collectDemolishTasks ctx st w late).isEmpty = true
        · rw [if_pos hd, List.isEmpty_iff.mp hd, dispatch_nil]
        · rw [if_neg hd]
      rw [hr1] at h
      have hr2 : ∀ st1 : TDState,
          (if (collectBuildTasks ctx st w late ++ collectUpgradeTasks ctx st w late).isEmpty
              = true then
            (st1, ([] : List TDEvent), ([] : List BuildReport))
          else dispatch_tasks_by_region ctx.config meta ctx.active_loadout st1
            ((collectBuildTasks ctx st w late ++
              collectUpgradeTasks ctx st w late).mergeSort
              fun a b => decide (a.priority ≤ b.priority))) =
          dispatch_tasks_by_region ctx.config meta ctx.active_loadout st1
            ((collectBuildTasks ctx st w late ++
              collectUpgradeTasks ctx st w late).mergeSort
              fun a b => decide (a.priority ≤ b.priority)) := by
        intro st1
        by_cases hbu :
            (collectBuildTasks ctx st w late ++ collectUpgradeTasks ctx st w late).isEmpty
              = true
        · rw [if_pos hbu, List.isEmpty_iff.mp hbu, List.mergeSort_nil, dispatch_nil]
        · rw [if_neg hbu]
      rw [hr2] at h
      simp only [Option.some.injEq, Prod.mk.injEq] at h
      obtain ⟨h1, h2, -⟩ := h
      obtain ⟨p1, p2, p3, p4, p5, p6⟩ := dispatch_uid_perm ctx.config meta ctx.active_loadout
        st (collectDemolishTasks ctx st w late)
      obtain ⟨q1, q2, q3, q4, q5, q6⟩ := dispatch_uid_perm ctx.config meta ctx.active_loadout
        (dispatch_tasks_by_region ctx.config meta ctx.active_loadout st
          (collectDemolishTasks ctx st w late)).1
        ((collectBuildTasks ctx st w late ++ collectUpgradeTasks ctx st w late).mergeSort
          fun a b => decide (a.priority ≤ b.priority))
      have hms : ((collectBuildTasks ctx st w late ++
          collectUpgradeTasks ctx st w late).mergeSort
            fun a b => decide (a.priority ≤ b.priority)).Perm
          (collectBuildTasks ctx st w late ++ collectUpgradeTasks ctx st w late) :=
        List.mergeSort_perm _ _
      obtain ⟨kd1, kd2⟩ := collectDemolish_only_demolish ctx st w late
      obtain ⟨kb1, kb2⟩ := collectBuild_only_place ctx st w late
      obtain ⟨ku1, ku2⟩ := collectUpgrade_only_upgrade ctx st w late
      have hpu : (placeUidsT ((collectBuildTasks ctx st w late ++
          collectUpgradeTasks ctx st w late).mergeSort
            fun a b => decide (a.priority ≤ b.priority))).Perm
          (placeUidsT (collectBuildTasks ctx st w late)) := by
        refine (List.Perm.filterMap _ hms).trans ?_
        simp only [placeUidsT, List.filterMap_append]
        rw [show List.filterMap taskPlaceUid (collectUpgradeTasks ctx st w late) = [] from ku1]
        simp
      have hdu : (demUidsT ((collectBuildTasks ctx st w late ++
          collectUpgradeTasks ctx st w late).mergeSort
            fun a b => decide (a.priority ≤ b.priority))).Perm
          (demUidsT (collectBuildTasks ctx st w late ++
            collectUpgradeTasks ctx st w late)) := List.Perm.filterMap _ hms
      have hdu2 : demUidsT (collectBuildTasks ctx st w late ++
          collectUpgradeTasks ctx st w late) = [] := by
        simp only [demUidsT, List.filterMap_append]
        rw [show List.filterMap taskDemUid (collectBuildTasks ctx st w late) = [] from kb1,
          show List.filterMap taskDemUid (collectUpgradeTasks ctx st w late) = [] from ku2]
        rfl
      have huk : (upgKeysT ((collectBuildTasks ctx st w late ++
          collectUpgradeTasks ctx st w late).mergeSort
            fun a b => decide (a.priority ≤ b.priority))).Perm
          (upgKeysT (collectUpgradeTasks ctx st w late)) := by
        refine (List.Perm.filterMap _ hms).trans ?_
        simp only [upgKeysT, List.filterMap_append]
        rw [show List.filterMap taskUpgKey (collectBuildTasks ctx st w late) = [] from kb2]
        simp
      refine ⟨?_, ?_, ?_, ?_, ?_, ?_⟩
      · rw [← h2, placedOf_append]
        have hA : (placedOf (dispatch_tasks_by_region ctx.config meta ctx.active_loadout st
            (collectDemolishTasks ctx st w late)).2.1).Perm [] := p1.trans (by rw [kd1])
        exact List.Perm.trans (List.Perm.append hA (q1.trans hpu)) (by simp)
      · rw [← h2, demolishedOf_append]
        have hB := q2.trans (hdu.trans (by rw [hdu2]))
        exact List.Perm.trans (List.Perm.append p2 hB) (by simp)
      · rw [← h2, upgradedOf_append]
        have hA : (upgradedOf (dispatch_tasks_by_region ctx.config meta ctx.active_loadout st
            (collectDemolishTasks ctx st w late)).2.1).Perm [] := p3.trans (by rw [kd2])
        exact List.Perm.trans (List.Perm.append hA (q3.trans huk)) (by simp)
      · rw [← h1, q4, p4, kd1]
        rw [List.toFinset_eq_of_perm _ _ hpu]
        simp
      · rw [← h1, q5, p5]
        rw [List.toFinset_eq_of_perm _ _ (hdu.trans (by rw [hdu2]))]
        simp
      · rw [← h1, q6, p6, kd2]
        rw [List.toFinset_eq_of_perm _ _ huk]
        simp

/-! ## The run-level invariant (C5) -/

lemma runPhases_inv (ctx : TDCtx)
    (hB : (ctx.strategy_buildings.map BuildingExport.uid).Nodup)
    (hD : (ctx.strategy_demolishes.map DemolishEvent.uid).Nodup)
    (hU : (ctx.strategy_upgrades.map
      fun u => fmtKey u.building_name u.wave_num u.is_late).Nodup) :
    ∀ (phases : List (Int × Bool)) (st : TDState),
      (∀ st', (runPhases ctx phases st).1 = some st' →
        st.placed_uids ⊆ st'.placed_uids ∧
        st.completed_demolish_uids ⊆ st'.completed_demolish_uids ∧
        st.completed_upgrade_keys ⊆ st'.completed_upgrade_keys) ∧
      (placedOf (runPhases ctx phases st).2).Nodup ∧
      (demolishedOf (runPhases ctx phases st).2).Nodup ∧
      (upgradedOf (runPhases ctx phases st).2).Nodup ∧
      (∀ u ∈ placedOf (runPhases ctx phases st).2, u ∉ st.placed_uids) ∧
      (∀ u ∈ demolishedOf (runPhases ctx phases st).2, u ∉ st.completed_demolish_uids) ∧
      (∀ k ∈ upgradedOf (runPhases ctx phases st).2, k ∉ st.completed_upgrade_keys) := by
  intro phases
  induction phases with
  | nil =>
    intro st
    refine ⟨?_, by simp [runPhases, placedOf], by simp [runPhases, demolishedOf],
      by simp [runPhases, upgradedOf], by simp [runPhases, placedOf],
      by simp [runPhases, demolishedOf], by simp [runPhases, upgradedOf]⟩
    intro st' h
    simp only [runPhases, Option.some.injEq] at h
    rw [← h]
    exact ⟨Finset.Subset.refl _, Finset.Subset.refl _, Finset.Subset.refl _⟩
  | cons c cs ih =>
    intro st
    cases hp : execute_wave_phase ctx st c.1 c.2 with
    | none =>
      have hr : runPhases ctx (c :: cs) st = (none, []) := by
        simp [runPhases, hp]
      rw [hr]
      simp [placedOf, demolishedOf, upgradedOf]
    | some r =>
      obtain ⟨st2, ev, reps⟩ := r
      have hr : runPhases ctx (c :: cs) st =
          ((runPhases ctx cs st2).1, ev ++ (runPhases ctx cs st2).2) := by
        simp [runPhases, hp]
      obtain ⟨f1, f2, f3, f4, f5, f6⟩ := phase_run ctx st c.1 c.2 st2 ev reps hp
      obtain ⟨i1, i2, i3, i4, i5, i6, i7⟩ := ih st2
      have hevB : (placedOf ev).Nodup :=
        f1.symm.nodup ((collectBuild_uids ctx st c.1 c.2).1.nodup hB)
      have hevD : (demolishedOf ev).Nodup :=
        f2.symm.nodup ((collectDemolish_uids ctx st c.1 c.2).1.nodup hD)
      have hevU : (upgradedOf ev).Nodup :=
        f3.symm.nodup ((collectUpgrade_keys ctx st c.1 c.2).1.nodup hU)
      rw [hr]
      refine ⟨?_, ?_, ?_, ?_, ?_, ?_, ?_⟩
      · intro st' h
        obtain ⟨s1, s2, s3⟩ := i1 st' h
        refine ⟨Finset.Subset.trans ?_ s1, Finset.Subset.trans ?_ s2,
          Finset.Subset.trans ?_ s3⟩
        · rw [f4]; exact Finset.subset_union_left
        · rw [f5]; exact Finset.subset_union_left
        · rw [f6]; exact Finset.subset_union_left
      · rw [placedOf_append, List.nodup_append]
        refine ⟨hevB, i2, ?_⟩
        intro x hx hx2
        have hx3 : x ∈ placeUidsT (collectBuildTasks ctx st c.1 c.2) := f1.mem_iff.mp hx
        exact i5 x hx2
          (by rw [f4]; exact Finset.mem_union_right _ (List.mem_toFinset.mpr hx3))
      · rw [demolishedOf_append, List.nodup_append]
        refine ⟨hevD, i3, ?_⟩
        intro x hx hx2
        have hx3 : x ∈ demUidsT (collectDemolishTasks ctx st c.1 c.2) := f2.mem_iff.mp hx
        exact i6 x hx2
          (by rw [f5]; exact Finset.mem_union_right _ (List.mem_toFinset.mpr hx3))
      · rw [upgradedOf_append, List.nodup_append]
        refine ⟨hevU, i4, ?_⟩
        intro x hx hx2
        have hx3 : x ∈ upgKeysT (collectUpgradeTasks ctx st c.1 c.2) := f3.mem_iff.mp hx
        exact i7 x hx2
          (by rw [f6]; exact Finset.mem_union_right _ (List.mem_toFinset.mpr hx3))
      · rw [placedOf_append]
        intro u hu
        rcases List.mem_append.mp hu with h1 | h1
        · exact (collectBuild_uids ctx st c.1 c.2).2 u (f1.mem_iff.mp h1)
        · intro hmem
          exact i5 u h1 (by rw [f4]; exact Finset.mem_union_left _ hmem)
      · rw [demolishedOf_append]
        intro u hu
        rcases List.mem_append.mp hu with h1 | h1
        · exact (collectDemolish_uids ctx st c.1 c.2).2 u (f2.mem_iff.mp h1)
        · intro hmem
          exact i6 u h1 (by rw [f5]; exact Finset.mem_union_left _ hmem)
      · rw [upgradedOf_append]
        intro k hk
        rcases List.mem_append.mp hk with h1 | h1
        · exact (collectUpgrade_keys ctx st c.1 c.2).2 k (f3.mem_iff.mp h1)
        · intro hmem
          exact i7 k h1 (by rw [f6]; exact Finset.mem_union_left _ hmem)

/-- Claim C5: over any sequence of `execute_wave_phase` calls (in particular
arbitrarily repeated calls with the same `(wave, is_late)`), provided the
loaded strategy's building uids, demolish uids and upgrade keys are each
duplicate-free, the completion-tracking sets only grow, each building uid /
demolish uid / upgrade key is dispatched at most once in the whole run, and
a uid or key already in its completion set is never dispatched at all. -/
theorem C5_completion_sets_once (ctx : TDCtx)
    (hB : (ctx.strategy_buildings.map BuildingExport.uid).Nodup)
    (hD : (ctx.strategy_demolishes.map DemolishEvent.uid).Nodup)
    (hU : (ctx.strategy_upgrades.map
      fun u => fmtKey u.building_name u.wave_num u.is_late).Nodup)
    (phases : List (Int × Bool)) (st : TDState) :
    (∀ st', (runPhases ctx phases st).1 = some st' →
      st.placed_uids ⊆ st'.placed_uids ∧
      st.completed_demolish_uids ⊆ st'.completed_demolish_uids ∧
      st.completed_upgrade_keys ⊆ st'.completed_upgrade_keys) ∧
    (∀ u, (placedOf (runPhases ctx phases st).2).count u ≤ 1) ∧
    (∀ u, (demolishedOf (runPhases ctx phases st).2).count u ≤ 1) ∧
    (∀ k, (upgradedOf (runPhases ctx phases st).2).count k ≤ 1) ∧
    (∀ u ∈ st.placed_uids, u ∉ placedOf (runPhases ctx phases st).2) ∧
    (∀ u ∈ st.completed_demolish_uids, u ∉ demolishedOf (runPhases ctx phases st).2) ∧
    (∀ k ∈ st.completed_upgrade_keys, k ∉ upgradedOf (runPhases ctx phases st).2) := by
  obtain ⟨i1, i2, i3, i4, i5, i6, i7⟩ := runPhases_inv ctx hB hD hU phases st
  exact ⟨i1, List.nodup_iff_count_le_one.mp i2, List.nodup_iff_count_le_one.mp i3,
    List.nodup_iff_count_le_one.mp i4,
    fun u hu hmem => i5 u hmem hu, fun u hu hmem => i6 u hmem hu,
    fun k hk hmem => i7 k hmem hk⟩

/-- Concrete instantiation of C5: over two repeated wave-1 phases on a
duplicate-free strategy, building uid 7 is dispatched at most once. -/
theorem C5_completion_sets_once_witness :
    (placedOf (runPhases c5ctx [(1, false), (1, false)] c5st).2).count 7 ≤ 1 :=
  (C5_completion_sets_once c5ctx (by decide) (by decide) (by decide)
    [(1, false), (1, false)] c5st).2.1 7

/-! ## Region ordering (C6) -/

lemma taskUpLe_trans : ∀ a b c : ScheduledTask,
    taskUpLe a b = true → taskUpLe b c = true → taskUpLe a c = true := by
  intro a b c hab hbc
  simp only [taskUpLe, decide_eq_true_eq] at hab hbc ⊢
  rcases hab with h1 | ⟨h1, h1p⟩ <;> rcases hbc with h2 | ⟨h2, h2p⟩
  · exact Or.inl (h1.trans h2)
  · exact Or.inl (lt_of_lt_of_le h1 (le_of_eq h2))
  · exact Or.inl (lt_of_le_of_lt (le_of_eq h1) h2)
  · exact Or.inr ⟨h1.trans h2, h1p.trans h2p⟩

lemma taskUpLe_total : ∀ a b : ScheduledTask, (taskUpLe a b || taskUpLe b a) = true := by
  intro a b
  simp only [taskUpLe, Bool.or_eq_true, decide_eq_true_eq]
  rcases lt_trichotomy a.map_y b.map_y with h | h | h
  · exact Or.inl (Or.inl h)
  · rcases Nat.le_total a.priority b.priority with hp | hp
    · exact Or.inl (Or.inr ⟨h, hp⟩)
    · exact Or.inr (Or.inr ⟨h.symm, hp⟩)
  · exact Or.inr (Or.inl h)

lemma taskDownLe_trans : ∀ a b c : ScheduledTask,
    taskDownLe a b = true → taskDownLe b c = true → taskDownLe a c = true := by
  intro a b c hab hbc
  simp only [taskDownLe, decide_eq_true_eq] at hab hbc ⊢
  rcases hab with h1 | ⟨h1, h1p⟩ <;> rcases hbc with h2 | ⟨h2, h2p⟩
  · exact Or.inl (h2.trans h1)
  · exact Or.inl (lt_of_le_of_lt (le_of_eq h2.symm) h1)
  · exact Or.inl (lt_of_lt_of_le h2 (le_of_eq h1.symm))
  · exact Or.inr ⟨h1.trans h2, h1p.trans h2p⟩

lemma taskDownLe_total : ∀ a b : ScheduledTask,
    (taskDownLe a b || taskDownLe b a) = true := by
  intro a b
  simp only [taskDownLe, Bool.or_eq_true, decide_eq_true_eq]
  rcases lt_trichotomy a.map_y b.map_y with h | h | h
  · exact Or.inr (Or.inl h)
  · rcases Nat.le_total a.priority b.priority with hp | hp
    · exact Or.inl (Or.inr ⟨h, hp⟩)
    · exact Or.inr (Or.inr ⟨h.symm, hp⟩)
  · exact Or.inl (Or.inl h)

lemma upperTasks_sorted (cfg : TDConfig) (meta : MapMeta) (tasks : List ScheduledTask) :
    List.Pairwise (fun a b => taskUpLe a b = true) (upperTasks cfg meta tasks) :=
  List.sorted_mergeSort taskUpLe_trans taskUpLe_total _

lemma lowerTasks_sorted (cfg : TDConfig) (meta : MapMeta) (tasks : List ScheduledTask) :
    List.Pairwise (fun a b => taskDownLe a b = true) (lowerTasks cfg meta tasks) :=
  List.sorted_mergeSort taskDownLe_trans taskDownLe_total _

lemma mem_upperTasks (cfg : TDConfig) (meta : MapMeta) (tasks : List ScheduledTask)
    (t : ScheduledTask) :
    t ∈ upperTasks cfg meta tasks ↔ t ∈ tasks ∧ regionPred cfg meta t = true := by
  unfold upperTasks
  rw [List.mem_mergeSort, List.mem_filter]

lemma mem_lowerTasks (cfg : TDConfig) (meta : MapMeta) (tasks : List ScheduledTask)
    (t : ScheduledTask) :
    t ∈ lowerTasks cfg meta tasks ↔ t ∈ tasks ∧ regionPred cfg meta t = false := by
  unfold lowerTasks
  rw [List.mem_mergeSort, List.mem_filter]
  simp [Function.comp, Bool.not_eq_true']

/-- Claim C6: within one `execute_wave_phase` call, the dispatched actions
decompose as the demolish tasks of the wave-phase (upper region then lower
region) followed by its build/upgrade tasks (upper region then lower
region): every demolish action is dispatched strictly before every build or
upgrade action of the whole wave-phase. Each of the four segments exhausts
its task set (`Perm`) and is sorted by row — ascending (`taskUpLe`) in the
upper region, descending (`taskDownLe`) in the lower — with ties broken by
priority, where collected build tasks carry priority 1 and upgrades
priority 2 (build before upgrade on the same row). -/
theorem C6_demolish_first_then_sorted (ctx : TDCtx) (st : TDState) (w : Int) (late : Bool)
    (st2 : TDState) (ev : List TDEvent) (reps : List BuildReport)
    (h : execute_wave_phase ctx st w late = some (st2, ev, reps)) :
    ∃ d1 d2 b1 b2 : List ScheduledTask,
      dispatchLabels ev =
        (d1.map taskLabel ++ d2.map taskLabel) ++
          (b1.map taskLabel ++ b2.map taskLabel) ∧
      (d1 ++ d2).Perm (collectDemolishTasks ctx st w late) ∧
      (b1 ++ b2).Perm
        (collectBuildTasks ctx st w late ++ collectUpgradeTasks ctx st w late) ∧
      (∀ t ∈ d1 ++ d2, ∃ d, t.action = TaskAction.demolish d) ∧
      (∀ t ∈ b1 ++ b2,
        (∃ b, t.action = TaskAction.place b ∧ t.priority = 1) ∨
        (∃ u, t.action = TaskAction.upgrade u ∧ t.priority = 2)) ∧
      List.Pairwise (fun a b => taskUpLe a b = true) d1 ∧
      List.Pairwise (fun a b => taskDownLe a b = true) d2 ∧
      List.Pairwise (fun a b => taskUpLe a b = true) b1 ∧
      List.Pairwise (fun a b => taskDownLe a b = true) b2 ∧
      (∀ m, ctx.map_meta = some m →
        (∀ t ∈ d1, regionPred ctx.config m t = true) ∧
        (∀ t ∈ d2, regionPred ctx.config m t = false) ∧
        (∀ t ∈ b1, regionPred ctx.config m t = true) ∧
        (∀ t ∈ b2, regionPred ctx.config m t = false)) := by
  simp only [execute_wave_phase] at h
  by_cases hboth : (collectDemolishTasks ctx st w late).isEmpty = true ∧
      (collectBuildTasks ctx st w late ++ collectUpgradeTasks ctx st w late).isEmpty = true
  · rw [if_pos hboth] at h
    simp only [Option.some.injEq, Prod.mk.injEq] at h
    obtain ⟨-, h2, -⟩ := h
    refine ⟨[], [], [], [], ?_, ?_, ?_, by simp, by simp, by simp, by simp, by simp,
      by simp, by intro m hm; simp⟩
    · rw [← h2]; simp [dispatchLabels]
    · rw [List.isEmpty_iff.mp hboth.1]; rfl
    · rw [List.isEmpty_iff.mp hboth.2]; rfl
  · rw [if_neg hboth] at h
    cases hm : ctx.map_meta with
    | none => rw [hm] at h; cases h
    | some meta =>
      rw [hm] at h
      simp only [] at h
      have hr1 : (if (collectDemolishTasks ctx st w late).isEmpty = true then
            (st, ([] : List TDEvent), ([] : List BuildReport))
          else dispatch_tasks_by_region ctx.config meta ctx.active_loadout st
            (collectDemolishTasks ctx st w late)) =
          dispatch_tasks_by_region ctx.config meta ctx.active_loadout st
            (collectDemolishTasks ctx st w late) := by
        by_cases hd : (collectDemolishTasks ctx st w late).isEmpty = true
        · rw [if_pos hd, List.isEmpty_iff.mp hd, dispatch_nil]
        · rw [if_neg hd]
      rw [hr1] at h
      have hr2 : ∀ st1 : TDState,
          (if (collectBuildTasks ctx st w late ++ collectUpgradeTasks ctx st w late).isEmpty
              = true then
            (st1, ([] : List TDEvent), ([] : List BuildReport))
          else dispatch_tasks_by_region ctx.config meta ctx.active_loadout st1
            ((collectBuildTasks ctx st w late ++
              collectUpgradeTasks ctx st w late).mergeSort
              fun a b => decide (a.priority ≤ b.priority))) =
          dispatch_tasks_by_region ctx.config meta ctx.active_loadout st1
            ((collectBuildTasks ctx st w late ++
              collectUpgradeTasks ctx st w late).mergeSort
              fun a b => decide (a.priority ≤ b.priority)) := by
        intro st1
        by_cases hbu :
            (collectBuildTasks ctx st w late ++ collectUpgradeTasks ctx st w late).isEmpty
              = true
        · rw [if_pos hbu, List.isEmpty_iff.mp hbu, List.mergeSort_nil, dispatch_nil]
        · rw [if_neg hbu]
      rw [hr2] at h
      simp only [Option.some.injEq, Prod.mk.injEq] at h
      obtain ⟨-, h2, -⟩ := h
      refine ⟨upperTasks ctx.config meta (collectDemolishTasks ctx st w late),
        lowerTasks ctx.config meta (collectDemolishTasks ctx st w late),
        upperTasks ctx.config meta ((collectBuildTasks ctx st w late ++
          collectUpgradeTasks ctx st w late).mergeSort
          fun a b => decide (a.priority ≤ b.priority)),
        lowerTasks ctx.config meta ((collectBuildTasks ctx st w late ++
          collectUpgradeTasks ctx st w late).mergeSort
          fun a b => decide (a.priority ≤ b.priority)),
        ?_, ?_, ?_, ?_, ?_, upperTasks_sorted _ _ _, lowerTasks_sorted _ _ _,
        upperTasks_sorted _ _ _, lowerTasks_sorted _ _ _, ?_⟩
      · rw [← h2, dispatchLabels_append,
          (dispatch_run ctx.config meta ctx.active_loadout st
            (collectDemolishTasks ctx st w late)).2.2.2.1,
          (dispatch_run ctx.config meta ctx.active_loadout
            (dispatch_tasks_by_region ctx.config meta ctx.active_loadout st
              (collectDemolishTasks ctx st w late)).1
            ((collectBuildTasks ctx st w late ++
              collectUpgradeTasks ctx st w late).mergeSort
              fun a b => decide (a.priority ≤ b.priority))).2.2.2.1]
      · exact upper_lower_perm _ _ _
      · exact (upper_lower_perm _ _ _).trans (List.mergeSort_perm _ _)
      · intro t ht
        rcases List.mem_append.mp ht with ht | ht
        · obtain ⟨htm, -⟩ := (mem_upperTasks _ _ _ _).mp ht
          obtain ⟨d, hd, -⟩ := mem_collectDemolish ctx st w late t htm
          exact ⟨d, hd⟩
        · obtain ⟨htm, -⟩ := (mem_lowerTasks _ _ _ _).mp ht
          obtain ⟨d, hd, -⟩ := mem_collectDemolish ctx st w late t htm
          exact ⟨d, hd⟩
      · intro t ht
        have htm : t ∈ (collectBuildTasks ctx st w late ++
            collectUpgradeTasks ctx st w late).mergeSort
            fun a b => decide (a.priority ≤ b.priority) := by
          rcases List.mem_append.mp ht with ht | ht
          · exact ((mem_upperTasks _ _ _ _).mp ht).1
          · exact ((mem_lowerTasks _ _ _ _).mp ht).1
        rcases List.mem_append.mp (List.mem_mergeSort.mp htm) with htc | htc
        · obtain ⟨b, hb, hp, -⟩ := mem_collectBuild ctx st w late t htc
          exact Or.inl ⟨b, hb, hp⟩
        · obtain ⟨u, hu, hp, -⟩ := mem_collectUpgrade ctx st w late t htc
          exact Or.inr ⟨u, hu, hp⟩
      · intro m hm2
        injection hm2 with hmm
        subst hmm
        exact ⟨fun t ht => ((mem_upperTasks _ _ _ _).mp ht).2,
          fun t ht => ((mem_lowerTasks _ _ _ _).mp ht).2,
          fun t ht => ((mem_upperTasks _ _ _ _).mp ht).2,
          fun t ht => ((mem_lowerTasks _ _ _ _).mp ht).2⟩

lemma c6_eval : execute_wave_phase c6ctx c5st 1 false =
    some (⟨∅, {"spike-1-false"}, ∅, 0⟩,
      [TDEvent.keyHold 'w' 2500, TDEvent.sleep 500, TDEvent.actUpgrade "spike-1-false",
       TDEvent.keyHold '4' 1500, TDEvent.sleep 400], []) := by
  have hcolu : collectUpgradeTasks c6ctx c5st 1 false =
      [⟨TaskAction.upgrade ⟨"spike", 1, false⟩, 0, 0, 2⟩] := by decide
  have hcold : collectDemolishTasks c6ctx c5st 1 false = [] := by decide
  have hcolb : collectBuildTasks c6ctx c5st 1 false = [] := by decide
  have hrp : regionPred TDConfig.default ⟨10, 0, 0, 1080, []⟩
      ⟨TaskAction.upgrade ⟨"spike", 1, false⟩, 0, 0, 2⟩ = true := by
    simp only [regionPred, TDConfig.default, decide_eq_true_eq]
    norm_num
  have hv : are_tasks_in_current_view TDConfig.default 0
      [⟨TaskAction.upgrade ⟨"spike", 1, false⟩, 0, 0, 2⟩] = false := by
    simp only [are_tasks_in_current_view, TDConfig.default, List.all_cons, List.all_nil,
      Bool.and_true, decide_eq_true_eq]
    norm_num
  have hkey : get_trap_key ["spike"] "spike" = '4' := by decide
  have hfk : fmtKey "spike" 1 false = "spike-1-false" := by decide
  have hbatch : process_task_batch TDConfig.default ⟨10, 0, 0, 1080, []⟩ ["spike"]
      (⟨∅, ∅, ∅, 0⟩ : TDState) [⟨TaskAction.upgrade ⟨"spike", 1, false⟩, 0, 0, 2⟩] true =
      (⟨∅, {"spike-1-false"}, ∅, 0⟩,
       [TDEvent.actUpgrade "spike-1-false", TDEvent.keyHold '4' 1500, TDEvent.sleep 400],
       []) := by
    simp only [process_task_batch, List.foldl_cons, List.foldl_nil, batchStep,
      execute_single_upgrade, hkey, hfk]
    rfl
  have hdh : dispatch_region_half TDConfig.default ⟨10, 0, 0, 1080, []⟩ ["spike"] c5st
      [⟨TaskAction.upgrade ⟨"spike", 1, false⟩, 0, 0, 2⟩]
      [⟨TaskAction.upgrade ⟨"spike", 1, false⟩, 0, 0, 2⟩] true =
      (⟨∅, {"spike-1-false"}, ∅, 0⟩,
       [TDEvent.keyHold 'w' 2500, TDEvent.sleep 500, TDEvent.actUpgrade "spike-1-false",
        TDEvent.keyHold '4' 1500, TDEvent.sleep 400], []) := by
    rw [dispatch_region_half]
    rw [if_neg (by decide)]
    have hc : c5st.camera_offset_y = 0 := rfl
    rw [hc, if_neg (by rw [hv]; exact Bool.false_ne_true)]
    simp only [align_camera_to_edge, c5st, if_true, ite_true]
    rw [hbatch]
    rfl
  have hdisp : dispatch_tasks_by_region TDConfig.default ⟨10, 0, 0, 1080, []⟩ ["spike"]
      c5st [⟨TaskAction.upgrade ⟨"spike", 1, false⟩, 0, 0, 2⟩] =
      (⟨∅, {"spike-1-false"}, ∅, 0⟩,
       [TDEvent.keyHold 'w' 2500, TDEvent.sleep 500, TDEvent.actUpgrade "spike-1-false",
        TDEvent.keyHold '4' 1500, TDEvent.sleep 400], []) := by
    simp only [dispatch_tasks_by_region, List.partition_eq_filter_filter,
      List.filter_cons, List.filter_nil, hrp, Function.comp, Bool.not_true,
      eq_self_iff_true, if_true, Bool.false_eq_true, if_false]
    rw [show ([⟨TaskAction.upgrade ⟨"spike", 1, false⟩, 0, 0, 2⟩] :
      List ScheduledTask).mergeSort taskUpLe =
      [⟨TaskAction.upgrade ⟨"spike", 1, false⟩, 0, 0, 2⟩] from List.mergeSort_singleton _,
      hdh]
    rw [show (dispatch_region_half TDConfig.default ⟨10, 0, 0, 1080, []⟩ ["spike"]
      (⟨∅, {"spike-1-false"}, ∅, 0⟩ : TDState) [] ((([] : List ScheduledTask)).mergeSort
        taskDownLe) false) = (⟨∅, {"spike-1-false"}, ∅, 0⟩, [], []) from rfl]
    rfl
  rw [execute_wave_phase]
  rw [hcold, hcolb, hcolu]
  rw [if_neg (by decide)]
  rw [show c6ctx.map_meta = some ⟨10, 0, 0, 1080, []⟩ from rfl]
  simp only []
  rw [if_pos (show ([] : List ScheduledTask).isEmpty = true from rfl),
    if_neg (show ¬ (([] ++ [⟨TaskAction.upgrade ⟨"spike", 1, false⟩, 0, 0, 2⟩] :
      List ScheduledTask)).isEmpty = true by decide)]
  rw [show (([] ++ [⟨TaskAction.upgrade ⟨"spike", 1, false⟩, 0, 0, 2⟩] :
    List ScheduledTask)).mergeSort (fun a b => decide (a.priority ≤ b.priority)) =
    [⟨TaskAction.upgrade ⟨"spike", 1, false⟩, 0, 0, 2⟩] from List.mergeSort_singleton _]
  rw [show c6ctx.config = TDConfig.default from rfl,
    show c6ctx.active_loadout = ["spike"] from rfl,
    show ((c5st, ([] : List TDEvent), ([] : List BuildReport)).1) = c5st from rfl, hdisp]
  rfl

/-- Concrete instantiation of C6: a wave-1 phase of a strategy holding one
upgrade event decomposes as an empty demolish segment followed by the
sorted upgrade segment. -/
theorem C6_demolish_first_then_sorted_witness :
    ∃ d1 d2 b1 b2 : List ScheduledTask,
      dispatchLabels [TDEvent.keyHold 'w' 2500, TDEvent.sleep 500,
        TDEvent.actUpgrade "spike-1-false", TDEvent.keyHold '4' 1500, TDEvent.sleep 400] =
        (d1.map taskLabel ++ d2.map taskLabel) ++
          (b1.map taskLabel ++ b2.map taskLabel) ∧
      (d1 ++ d2).Perm (collectDemolishTasks c6ctx c5st 1 false) ∧
      (b1 ++ b2).Perm
        (collectBuildTasks c6ctx c5st 1 false ++ collectUpgradeTasks c6ctx c5st 1 false) ∧
      (∀ t ∈ d1 ++ d2, ∃ d, t.action = TaskAction.demolish d) ∧
      (∀ t ∈ b1 ++ b2,
        (∃ b, t.action = TaskAction.place b ∧ t.priority = 1) ∨
        (∃ u, t.action = TaskAction.upgrade u ∧ t.priority = 2)) ∧
      List.Pairwise (fun a b => taskUpLe a b = true) d1 ∧
      List.Pairwise (fun a b => taskDownLe a b = true) d2 ∧
      List.Pairwise (fun a b => taskUpLe a b = true) b1 ∧
      List.Pairwise (fun a b => taskDownLe a b = true) b2 ∧
      (∀ m, c6ctx.map_meta = some m →
        (∀ t ∈ d1, regionPred c6ctx.config m t = true) ∧
        (∀ t ∈ d2, regionPred c6ctx.config m t = false) ∧
        (∀ t ∈ b1, regionPred c6ctx.config m t = true) ∧
        (∀ t ∈ b2, regionPred c6ctx.config m t = false)) :=
  C6_demolish_first_then_sorted c6ctx c5st 1 false
    ⟨∅, {"spike-1-false"}, ∅, 0⟩
    [TDEvent.keyHold 'w' 2500, TDEvent.sleep 500, TDEvent.actUpgrade "spike-1-false",
     TDEvent.keyHold '4' 1500, TDEvent.sleep 400] [] c6_eval

/-! ## Navigation traces (C4) -/

lemma waitLoop_fail (m : SceneMap) (textOkAt : Nat → TextAnchor → Bool)
    (colorOkAt : Nat → ColorAnchor → Bool) (id : String) (timeout start : Nat)
    (hnone : ∀ t, ¬ 0 < get_match_score m id (textOkAt t) (colorOkAt t)) :
    ∀ fuel elapsed, (timeout - elapsed + 199) / 200 ≤ fuel →
      waitLoop m textOkAt colorOkAt id timeout start fuel elapsed =
      (false, elapsed + 200 * ((timeout - elapsed + 199) / 200),
       pollTrace id ((timeout - elapsed + 199) / 200)) := by
  intro fuel
  induction fuel with
  | zero =>
    intro e he
    have hk : (timeout - e + 199) / 200 = 0 := by omega
    rw [waitLoop, hk]
    simp [pollTrace]
  | succ n ih =>
    intro e he
    by_cases h : e < timeout
    · rw [waitLoop, if_pos h, if_neg (hnone (start + e))]
      simp only []
      rw [ih (e + 200) (by omega)]
      have hk : (timeout - e + 199) / 200 = (timeout - (e + 200) + 199) / 200 + 1 := by
        omega
      rw [hk]
      simp only [Prod.mk.injEq]
      exact ⟨by trivial, by omega, by simp [pollTrace]⟩
    · rw [waitLoop, if_neg h]
      have hk : (timeout - e + 199) / 200 = 0 := by omega
      rw [hk]
      simp [pollTrace]

lemma wait_for_scene_fail (m : SceneMap) (textOkAt : Nat → TextAnchor → Bool)
    (colorOkAt : Nat → ColorAnchor → Bool) (id : String) (timeout now : Nat)
    (hnone : ∀ t, ¬ 0 < get_match_score m id (textOkAt t) (colorOkAt t)) :
    wait_for_scene m textOkAt colorOkAt id timeout now =
      (false, 200 * ((timeout + 199) / 200), pollTrace id ((timeout + 199) / 200)) := by
  rw [wait_for_scene,
    waitLoop_fail m textOkAt colorOkAt id timeout now hnone (timeout / 200 + 1) 0
      (by omega)]
  simp

/-- Claim C4: for a transition step of the planned path, (1) if the step's
target scene is declared and anchorless (virtual), the loop clicks, sleeps
exactly the step's `post_delay` and returns `Handover(target)` immediately —
no confirmation poll, and none of the remaining transitions of the path is
executed; (2) if the target scene is not virtual and its matcher score never
becomes positive, the loop clicks and then polls the matcher every 200 ms
for `max(post_delay, 2000)` ms (`⌈timeout/200⌉` probes), runs one diagnostic
scan and returns `Failed`; (3) `navigate` itself, after a successful
identify and plan, is the transition loop's result prefixed by the identify
scan. -/
theorem C4_navigate_virtual_handover (m : SceneMap)
    (textOkAt : Nat → TextAnchor → Bool) (colorOkAt : Nat → ColorAnchor → Bool)
    (step : Transition) (rest : List Transition) (now : Nat) :
    (∀ s, sceneGet m step.target = some s → s.anchors.isNone = true →
      execSteps m textOkAt colorOkAt (step :: rest) now =
        (NavResult.handover step.target, now + step.post_delay,
         [NavEvent.click step.coords.1 step.coords.2, NavEvent.sleep step.post_delay])) ∧
    ((match sceneGet m step.target with
        | some s => s.anchors.isNone
        | none => false) = false →
      (∀ t, ¬ 0 < get_match_score m step.target (textOkAt t) (colorOkAt t)) →
      execSteps m textOkAt colorOkAt (step :: rest) now =
        (NavResult.failed,
         now + 200 * (((if step.post_delay < 2000 then 2000 else step.post_delay) + 199)
           / 200),
         NavEvent.click step.coords.1 step.coords.2 ::
           (pollTrace step.target
             (((if step.post_delay < 2000 then 2000 else step.post_delay) + 199) / 200) ++
            [NavEvent.scan]))) ∧
    (∀ target_id start_id path,
      identify_current_scene m none (textOkAt 0) (colorOkAt 0) = some start_id →
      start_id ≠ target_id →
      find_path m start_id target_id = some path →
      navigate m textOkAt colorOkAt target_id =
        ((execSteps m textOkAt colorOkAt path 0).1,
         NavEvent.scan :: (execSteps m textOkAt colorOkAt path 0).2.2)) := by
  refine ⟨?_, ?_, ?_⟩
  · intro s hs hnone
    rw [execSteps]
    simp only [hs, hnone, if_true, ite_true]
  · intro hnv hnone
    rw [execSteps]
    rw [hnv]
    rw [if_neg Bool.false_ne_true]
    simp only [wait_for_scene_fail m textOkAt colorOkAt step.target
      (if step.post_delay < 2000 then 2000 else step.post_delay) now hnone,
      Bool.false_eq_true, if_false]
  · intro target_id start_id path hid hne hfp
    rw [navigate, hid]
    simp only []
    rw [if_neg hne, hfp]

/-- Concrete instantiation of C4: on the `A → B / C` scene graph with a
screen matching `A`, navigating to the virtual scene `B` clicks once, sleeps
the step's 500 ms `post_delay` and hands over with no confirmation poll; a
step into the never-matching non-virtual scene `C` (timeout
`max(100, 2000) = 2000` ms) polls 10 times at 200 ms and fails. -/
theorem C4_navigate_virtual_handover_witness :
    navigate c4map (fun _ a => a.val == "home") (fun _ _ => false) "B" =
      (NavResult.handover "B",
       [NavEvent.scan, NavEvent.click 10 20, NavEvent.sleep 500]) ∧
    execSteps c4map (fun _ a => a.val == "home") (fun _ _ => false)
        [⟨"C", (30, 40), 100⟩] 0 =
      (NavResult.failed, 2000,
       NavEvent.click 30 40 :: (pollTrace "C" 10 ++ [NavEvent.scan])) := by
  constructor
  · have h := C4_navigate_virtual_handover c4map (fun _ a => a.val == "home")
      (fun _ _ => false) ⟨"B", (10, 20), 500⟩ [] 0
    rw [h.2.2 "B" "A" [⟨"B", (10, 20), 500⟩] (by decide) (by decide) (by decide)]
    rw [h.1 ⟨"B", "and", none, none⟩ (by decide) rfl]
  · have h := C4_navigate_virtual_handover c4map (fun _ a => a.val == "home")
      (fun _ _ => false) ⟨"C", (30, 40), 100⟩ [] 0
    rw [h.2.1 (by decide) (fun t => by decide)]
    rfl

end NZM
